import Mathlib

/-!
Shallow embedding of the SEO meta-tag injection middleware
(`src/server/middleware/seoMetaInjection.js`, first variant, the one the
claims cite) over `List Char`.  JavaScript regex replacement is modelled by
deterministic matcher functions: each of the concrete regexes used by the
code backtracks trivially (every greedy sub-pattern is followed by a literal
its character class excludes), so a single maximal-munch pass is exact.
-/

namespace Seo

/-- ASCII lower-casing, the effect of the regex `i` flag on the all-ASCII
patterns used by the code. -/
def lowerChar (c : Char) : Char :=
  if 65 ≤ c.toNat ∧ c.toNat ≤ 90 then Char.ofNat (c.toNat + 32) else c

/-- JavaScript `\s`: whitespace characters recognised by the regex engine. -/
def isSpaceJs (c : Char) : Bool :=
  c = ' ' || c = '\t' || c = '\n' || c = '\r' || c = '\x0b' || c = '\x0c' ||
  c = '\u00a0' || c = '\u1680' ||
  (8192 ≤ c.toNat && c.toNat ≤ 8202) ||
  c = '\u2028' || c = '\u2029' || c = '\u202f' || c = '\u205f' ||
  c = '\u3000' || c = '\ufeff'

/-- Consume a literal pattern (`ci` = case-insensitive, for the `i` flag);
returns the remaining input on success. -/
def dropLit (ci : Bool) : List Char → List Char → Option (List Char)
  | [], s => some s
  | _ :: _, [] => none
  | p :: ps, c :: cs =>
    if (if ci then lowerChar c else c) = p then dropLit ci ps cs else none

/-- `\s+` followed by a non-whitespace literal: one deterministic maximal
whitespace run of length at least one. -/
def dropSpaces1 : List Char → Option (List Char)
  | [] => none
  | c :: cs => if isSpaceJs c then some (cs.dropWhile isSpaceJs) else none

/-- The tail `\/?>` of the tag regexes: an optional slash then `>`. -/
def dropSlashOpt : List Char → List Char
  | '/' :: cs => cs
  | s => s

/-- `value.replace(/"/g, '&quot;')`: global escaping of double quotes. -/
def escQuotes : List Char → List Char
  | [] => []
  | c :: cs => (if c = '"' then "&quot;".data else [c]) ++ escQuotes cs

/-- `String.prototype.startsWith`-style prefix test used to build
`includes` and `indexOf`. -/
def isPrefixList : List Char → List Char → Bool
  | [], _ => true
  | x :: xs, s =>
    match s with
    | [] => false
    | y :: ys => x = y && isPrefixList xs ys

/-- `html.includes(sub)`. -/
def containsSubstring (sub : List Char) : List Char → Bool
  | [] => isPrefixList sub []
  | c :: cs => isPrefixList sub (c :: cs) || containsSubstring sub cs

/-- `html.indexOf(sub)`, `none` for `-1`. -/
def indexOfSub (sub : List Char) : List Char → Option Nat
  | [] => if isPrefixList sub [] then some 0 else none
  | c :: cs =>
    if isPrefixList sub (c :: cs) then some 0
    else (indexOfSub sub cs).map (· + 1)

/-- ECMAScript GetSubstitution for a string replacement with no capture
groups (the regexes here have none): `$$` yields `$`, `$&` the matched
substring, `$`+backtick (U+0060) the portion before the match, `$'` the
portion after it; every other `$`-sequence — including `$n` with no such
group and `$<` with no named groups — is copied literally. -/
def getSubstitution (matched before after : List Char) : List Char → List Char
  | [] => []
  | c :: rest =>
    if c = '$' then
      match rest with
      | [] => ['$']
      | d :: rest2 =>
        if d = '$' then '$' :: getSubstitution matched before after rest2
        else if d = '&' then matched ++ getSubstitution matched before after rest2
        else if d = Char.ofNat 96 then before ++ getSubstitution matched before after rest2
        else if d = '\'' then after ++ getSubstitution matched before after rest2
        else '$' :: d :: getSubstitution matched before after rest2
    else c :: getSubstitution matched before after rest

/-- The substring a matcher consumed, recovered from the suffix it left. -/
def matchedPart (s rest : List Char) : List Char := s.take (s.length - rest.length)

/-- The scan of `String.prototype.replace` with a non-global regex, with
`pre` the portion of the subject already passed over (needed by the
backtick substitution). -/
def replaceFirstFrom (matchAt : List Char → Option (List Char)) (repl : List Char) :
    List Char → List Char → List Char
  | pre, [] =>
    match matchAt [] with
    | some rest => getSubstitution (matchedPart [] rest) pre rest repl ++ rest
    | none => []
  | pre, c :: cs =>
    match matchAt (c :: cs) with
    | some rest => getSubstitution (matchedPart (c :: cs) rest) pre rest repl ++ rest
    | none => c :: replaceFirstFrom matchAt repl (pre ++ [c]) cs

/-- `String.prototype.replace` with a non-global regex: replace the
leftmost match by `repl`, the replacement string being subject to
`$`-substitution. -/
def replaceFirst (matchAt : List Char → Option (List Char)) (repl : List Char)
    (s : List Char) : List Char :=
  replaceFirstFrom matchAt repl [] s

/-- Matcher for `/<title>[^<]*<\/title>/` at the current position. -/
def matchTitleAt (s : List Char) : Option (List Char) :=
  (dropLit false "<title>".data s).bind fun s1 =>
  dropLit false "</title>".data (s1.dropWhile (fun c => c != '<'))

/-- Matcher for `/<TAG\s+ATTR\s+KEY"[^"]*"\s*\/?>/i` at the current
position, the common shape of the meta/link tag regexes. -/
def matchAttrTagAt (openTok attrTok keyTok : List Char) (s : List Char) :
    Option (List Char) :=
  (dropLit true openTok s).bind fun s1 =>
  (dropSpaces1 s1).bind fun s2 =>
  (dropLit true attrTok s2).bind fun s3 =>
  (dropSpaces1 s3).bind fun s4 =>
  (dropLit true keyTok s4).bind fun s5 =>
  (dropLit true "\"".data (s5.dropWhile (fun c => c != '"'))).bind fun s6 =>
  dropLit true ">".data (dropSlashOpt (s6.dropWhile isSpaceJs))

def matchDescriptionAt : List Char → Option (List Char) :=
  matchAttrTagAt "<meta".data "name=\"description\"".data "content=\"".data

def matchKeywordsAt : List Char → Option (List Char) :=
  matchAttrTagAt "<meta".data "name=\"keywords\"".data "content=\"".data

def matchOgTitleAt : List Char → Option (List Char) :=
  matchAttrTagAt "<meta".data "property=\"og:title\"".data "content=\"".data

def matchOgDescriptionAt : List Char → Option (List Char) :=
  matchAttrTagAt "<meta".data "property=\"og:description\"".data "content=\"".data

def matchOgImageAt : List Char → Option (List Char) :=
  matchAttrTagAt "<meta".data "property=\"og:image\"".data "content=\"".data

def matchTwitterTitleAt : List Char → Option (List Char) :=
  matchAttrTagAt "<meta".data "name=\"twitter:title\"".data "content=\"".data

def matchTwitterDescriptionAt : List Char → Option (List Char) :=
  matchAttrTagAt "<meta".data "name=\"twitter:description\"".data "content=\"".data

def matchCanonicalAt : List Char → Option (List Char) :=
  matchAttrTagAt "<link".data "rel=\"canonical\"".data "href=\"".data

/-- Replacement text `<title>V</title>` (`V` already escaped at call site). -/
def titleTagText (v : List Char) : List Char :=
  "<title>".data ++ v ++ "</title>".data

/-- Replacement text `<meta name="N" content="V" />`. -/
def metaNameText (n v : List Char) : List Char :=
  "<meta name=\"".data ++ n ++ "\" content=\"".data ++ v ++ "\" />".data

/-- Replacement text `<meta property="N" content="V" />`. -/
def metaPropText (n v : List Char) : List Char :=
  "<meta property=\"".data ++ n ++ "\" content=\"".data ++ v ++ "\" />".data

/-- Replacement text `<link rel="canonical" href="V" />`. -/
def linkCanonicalText (v : List Char) : List Char :=
  "<link rel=\"canonical\" href=\"".data ++ v ++ "\" />".data

/-- The generated tag set (`seoData`).  The JS truthiness test
`if (seoData.keywords)` is modelled by non-emptiness of `keywords`. -/
structure SeoTagSet where
  title : List Char
  description : List Char
  ogTitle : List Char
  ogDescription : List Char
  ogImage : List Char
  keywords : List Char
  canonicalUrl : List Char
deriving DecidableEq

/-- Step 1 of `injectMetaTags`: always replace the first title tag. -/
def stepTitle (sd : SeoTagSet) (html : List Char) : List Char :=
  replaceFirst matchTitleAt (titleTagText (escQuotes sd.title)) html

/-- Step 2: always replace the first meta-description tag. -/
def stepDescription (sd : SeoTagSet) (html : List Char) : List Char :=
  replaceFirst matchDescriptionAt
    (metaNameText "description".data (escQuotes sd.description)) html

/-- Step 3: replace og:title only when `property="og:title"` occurs. -/
def stepOgTitle (sd : SeoTagSet) (html : List Char) : List Char :=
  if containsSubstring "property=\"og:title\"".data html then
    replaceFirst matchOgTitleAt
      (metaPropText "og:title".data (escQuotes sd.ogTitle)) html
  else html

/-- Step 4: replace og:description only when its attribute occurs. -/
def stepOgDescription (sd : SeoTagSet) (html : List Char) : List Char :=
  if containsSubstring "property=\"og:description\"".data html then
    replaceFirst matchOgDescriptionAt
      (metaPropText "og:description".data (escQuotes sd.ogDescription)) html
  else html

/-- `html.indexOf(sub)` followed by slicing: insert `ins` immediately before
the first occurrence of `sub`, or return the input when there is none
(`headClosingIndex === -1`). -/
def insertBeforeFirst (sub ins s : List Char) : List Char :=
  match indexOfSub sub s with
  | some i => s.take i ++ ins ++ s.drop i
  | none => s

/-- Step 5: keywords — replace when the substring `name="keywords"` occurs,
otherwise insert before the first `</head>`; skipped entirely when the
generated keywords value is empty (JS falsy). -/
def stepKeywords (sd : SeoTagSet) (html : List Char) : List Char :=
  if sd.keywords = [] then html
  else if containsSubstring "name=\"keywords\"".data html then
    replaceFirst matchKeywordsAt
      (metaNameText "keywords".data (escQuotes sd.keywords)) html
  else
    insertBeforeFirst "</head>".data
      ("    ".data ++ metaNameText "keywords".data (escQuotes sd.keywords) ++ "\n".data) html

/-- Step 6: twitter:title (written from `seoData.ogTitle`, as the code does). -/
def stepTwitterTitle (sd : SeoTagSet) (html : List Char) : List Char :=
  if containsSubstring "name=\"twitter:title\"".data html then
    replaceFirst matchTwitterTitleAt
      (metaNameText "twitter:title".data (escQuotes sd.ogTitle)) html
  else html

/-- Step 7: twitter:description (written from `seoData.ogDescription`). -/
def stepTwitterDescription (sd : SeoTagSet) (html : List Char) : List Char :=
  if containsSubstring "name=\"twitter:description\"".data html then
    replaceFirst matchTwitterDescriptionAt
      (metaNameText "twitter:description".data (escQuotes sd.ogDescription)) html
  else html

/-- Step 8: og:image. -/
def stepOgImage (sd : SeoTagSet) (html : List Char) : List Char :=
  if containsSubstring "property=\"og:image\"".data html then
    replaceFirst matchOgImageAt
      (metaPropText "og:image".data (escQuotes sd.ogImage)) html
  else html

/-- Step 9: canonical link. -/
def stepCanonical (sd : SeoTagSet) (html : List Char) : List Char :=
  if containsSubstring "rel=\"canonical\"".data html then
    replaceFirst matchCanonicalAt
      (linkCanonicalText (escQuotes sd.canonicalUrl)) html
  else html

/-- The ordered substitution phase of `injectMetaTags` (steps 1–9). -/
def applySeoTags (sd : SeoTagSet) (html : List Char) : List Char :=
  stepCanonical sd (stepOgImage sd (stepTwitterDescription sd
    (stepTwitterTitle sd (stepKeywords sd (stepOgDescription sd
      (stepOgTitle sd (stepDescription sd (stepTitle sd html))))))))

/-- `extractProductSlug`: `pathname.match(/^\/products\/([^/?]+)/)`,
returning the capture or `null`. -/
def extractProductSlug (pathname : List Char) : Option (List Char) :=
  match dropLit false "/products/".data pathname with
  | none => none
  | some rest =>
    let cap := rest.takeWhile (fun c => c != '/' && c != '?')
    if cap = [] then none else some cap

/-- Product record (external entity; `models/Product` is not under `src/`).
Per spec §3 it has at minimum a name, slug and identifier, optionally
description/image fields; the fields the generator reads are modelled. -/
structure Product where
  slug : List Char
  name : List Char
  description : List Char
  image : List Char
  keywords : List Char
deriving DecidableEq

/-- Modelled from the spec: `seoGenerator.js` (`generateProductSeoTags`) is
not under `src/`.  Spec §4.2: each field is derived by simple formatting
from the product — title = product name + site suffix (scenario §8 gives
the suffix `| uni10`), canonicalUrl = baseUrl + "/products/" + slug — and
the function is pure and total. -/
def generateProductSeoTags (product : Product) (baseUrl : List Char) : SeoTagSet :=
  { title := product.name ++ " | uni10".data
    description := product.description
    ogTitle := product.name ++ " | uni10".data
    ogDescription := product.description
    ogImage := product.image
    keywords := product.keywords
    canonicalUrl := baseUrl ++ "/products/".data ++ product.slug }

/-- `injectMetaTags(html, pathname, baseUrl)`.  The two datastore lookups
(`Product.findOne({slug})` then `Product.findById(slug)`) are external
collaborators, passed in as functions that may fail (`Except ε`, the
thrown-error channel caught by the surrounding `try/catch`). -/
def injectMetaTags {ε : Type} (findOne findById : List Char → Except ε (Option Product))
    (html pathname baseUrl : List Char) : List Char :=
  match extractProductSlug pathname with
  | none => html
  | some slug =>
    match findOne slug with
    | Except.error _ => html
    | Except.ok (some product) =>
      applySeoTags (generateProductSeoTags product baseUrl) html
    | Except.ok none =>
      match findById slug with
      | Except.error _ => html
      | Except.ok none => html
      | Except.ok (some product) =>
        applySeoTags (generateProductSeoTags product baseUrl) html

/-- The optional keywords part of a shell document: either nothing or an
inserted keywords meta tag exactly as step 5 writes it. -/
def shellKwPart : Option (List Char) → List Char
  | some k => "    ".data ++ metaNameText "keywords".data k ++ "\n".data
  | none => []

/-- A well-formed shell document: a title tag and a canonical description
meta tag followed by the head-closing tag, with optional already-inserted
keywords tag; the filler regions carry no `<`. -/
def shellDoc (f0 t f1 d f2 : List Char) (kw : Option (List Char)) (f3 : List Char) : List Char :=
  f0 ++ (titleTagText t ++ (f1 ++ (metaNameText "description".data d ++ (f2 ++
    (shellKwPart kw ++ ("</head>".data ++ f3))))))

/-- How one pass of the injector transforms the keywords part of a shell
document (`m` is the document the step-5 `includes` test actually sees). -/
def shellKwNext (sd : SeoTagSet) (kw : Option (List Char)) (m : List Char) :
    Option (List Char) :=
  if sd.keywords = [] then kw
  else
    match kw with
    | some _ => some (escQuotes sd.keywords)
    | none =>
      if containsSubstring "name=\"keywords\"".data m then none
      else some (escQuotes sd.keywords)

/-- The tag set with every field quote-escaped, used to state that the
injector only ever writes escaped values. -/
def escapeTagSet (sd : SeoTagSet) : SeoTagSet :=
  { title := escQuotes sd.title
    description := escQuotes sd.description
    ogTitle := escQuotes sd.ogTitle
    ogDescription := escQuotes sd.ogDescription
    ogImage := escQuotes sd.ogImage
    keywords := escQuotes sd.keywords
    canonicalUrl := escQuotes sd.canonicalUrl }

/-! ### General lemmas about the string primitives -/

theorem lowerChar_upper_ne_lt : ∀ n : Nat, 65 ≤ n → n ≤ 90 → Char.ofNat (n + 32) ≠ '<' := by
  intro n h1 h2
  interval_cases n <;> decide

theorem lowerChar_eq_lt {c : Char} (h : lowerChar c = '<') : c = '<' := by
  unfold lowerChar at h
  split at h
  · rename_i hr
    exact absurd h (lowerChar_upper_ne_lt c.toNat hr.1 hr.2)
  · exact h

theorem dropLit_false_append (pat r : List Char) : dropLit false pat (pat ++ r) = some r := by
  induction pat with
  | nil => rfl
  | cons p ps ih =>
    show (if p = p then dropLit false ps (ps ++ r) else none) = some r
    rw [if_pos rfl]
    exact ih

theorem dropLit_false_eq_some {pat : List Char} :
    ∀ {s r : List Char}, dropLit false pat s = some r → s = pat ++ r := by
  induction pat with
  | nil =>
    intro s r h
    have h' : some s = some r := h
    simp [Option.some.inj h']
  | cons p ps ih =>
    intro s r h
    match s with
    | [] => simp [dropLit] at h
    | c :: cs =>
      have h' : (if c = p then dropLit false ps cs else none) = some r := h
      by_cases hc : c = p
      · rw [if_pos hc] at h'
        simp [hc, ih h']
      · rw [if_neg hc] at h'
        simp at h'

theorem dropLit_true_append {x pat : List Char} (hx : x.map lowerChar = pat) (r : List Char) :
    dropLit true pat (x ++ r) = some r := by
  induction x generalizing pat with
  | nil => subst hx; rfl
  | cons c cs ih =>
    subst hx
    simpa [dropLit] using ih rfl

theorem dropWhile_append_all {p : Char → Bool} {t : List Char} (ht : ∀ c ∈ t, p c = true)
    (u : List Char) : (t ++ u).dropWhile p = u.dropWhile p := by
  induction t with
  | nil => rfl
  | cons c cs ih =>
    simp only [List.cons_append, List.dropWhile_cons, ht c (List.mem_cons_self c cs), if_true]
    exact ih fun d hd => ht d (List.mem_cons_of_mem c hd)

theorem takeWhile_append_all {p : Char → Bool} {t : List Char} (ht : ∀ c ∈ t, p c = true)
    (u : List Char) : (t ++ u).takeWhile p = t ++ u.takeWhile p := by
  induction t with
  | nil => rfl
  | cons c cs ih =>
    simp only [List.cons_append, List.takeWhile_cons, ht c (List.mem_cons_self c cs), if_true]
    simp [ih fun d hd => ht d (List.mem_cons_of_mem c hd)]

theorem dropWhile_head_false {p : Char → Bool} :
    ∀ {l : List Char} {c : Char} {t : List Char}, l.dropWhile p = c :: t → p c = false := by
  intro l
  induction l with
  | nil => intro c t h; simp [List.dropWhile] at h
  | cons a as ih =>
    intro c t h
    rw [List.dropWhile_cons] at h
    by_cases hp : p a
    · rw [if_pos hp] at h; exact ih h
    · rw [if_neg hp] at h
      obtain ⟨h1, _⟩ := List.cons.inj h
      subst h1
      simpa using hp

theorem escQuotes_no_quote (v : List Char) : '"' ∉ escQuotes v := by
  induction v with
  | nil => simp [escQuotes]
  | cons c cs ih =>
    simp only [escQuotes, List.mem_append]
    rintro (h | h)
    · by_cases hc : c = '"'
      · rw [if_pos hc] at h
        exact absurd h (by decide)
      · rw [if_neg hc] at h
        simp at h
        exact hc h.symm
    · exact ih h

theorem escQuotes_eq_self {v : List Char} (hv : '"' ∉ v) : escQuotes v = v := by
  induction v with
  | nil => rfl
  | cons c cs ih =>
    have hc : c ≠ '"' := fun h => hv (h ▸ List.mem_cons_self c cs)
    simp only [escQuotes, if_neg hc, List.singleton_append]
    rw [ih fun h => hv (List.mem_cons_of_mem c h)]

theorem escQuotes_idem (v : List Char) : escQuotes (escQuotes v) = escQuotes v :=
  escQuotes_eq_self (escQuotes_no_quote v)

theorem escQuotes_eq_nil_iff {v : List Char} : escQuotes v = [] ↔ v = [] := by
  constructor
  · intro h
    match v with
    | [] => rfl
    | c :: cs =>
      simp only [escQuotes] at h
      by_cases hc : c = '"'
      · rw [if_pos hc] at h; simp at h
      · rw [if_neg hc] at h; simp at h
  · intro h; subst h; rfl

theorem escQuotes_not_mem {a : Char} {v : List Char} (ha : a ∉ v)
    (hq : a ∉ "&quot;".data) : a ∉ escQuotes v := by
  induction v with
  | nil => simp [escQuotes]
  | cons c cs ih =>
    simp only [escQuotes]
    intro hmem
    rcases List.mem_append.mp hmem with h | h
    · by_cases hc : c = '"'
      · rw [if_pos hc] at h; exact hq h
      · rw [if_neg hc] at h
        simp at h
        exact ha (h ▸ List.mem_cons_self c cs)
    · exact ih (fun hm => ha (List.mem_cons_of_mem c hm)) h

theorem isPrefixList_append_self (x y : List Char) : isPrefixList x (x ++ y) = true := by
  induction x with
  | nil => rfl
  | cons a as ih => simpa [isPrefixList] using ih

theorem containsSubstring_append_self (sub y : List Char) :
    containsSubstring sub (sub ++ y) = true := by
  match sub with
  | [] =>
    match y with
    | [] => rfl
    | c :: cs => simp [containsSubstring, isPrefixList]
  | a :: as =>
    show containsSubstring (a :: as) ((a :: as) ++ y) = true
    simp only [List.cons_append, containsSubstring, List.append_eq]
    rw [show a :: (as ++ y) = (a :: as) ++ y from rfl, isPrefixList_append_self]
    simp

theorem containsSubstring_decomp (sub x y : List Char) :
    containsSubstring sub (x ++ (sub ++ y)) = true := by
  induction x with
  | nil => simpa using containsSubstring_append_self sub y
  | cons c cs ih => simp [containsSubstring, ih]

/-! ### Scanning lemmas for `replaceFirstFrom` / `replaceFirst` -/

theorem getSubstitution_no_dollar {matched before after : List Char} :
    ∀ {repl : List Char}, '$' ∉ repl →
      getSubstitution matched before after repl = repl := by
  intro repl
  induction repl with
  | nil => intro h; rfl
  | cons c rest ih =>
    intro h
    have hc : c ≠ '$' := fun he => h (he ▸ List.mem_cons_self c rest)
    have he : getSubstitution matched before after (c :: rest) =
        c :: getSubstitution matched before after rest := by
      cases rest with
      | nil =>
        show (if c = '$' then ['$'] else c :: getSubstitution matched before after []) =
          c :: getSubstitution matched before after []
        rw [if_neg hc]
      | cons d rest2 =>
        show (if c = '$' then
            if d = '$' then '$' :: getSubstitution matched before after rest2
            else if d = '&' then matched ++ getSubstitution matched before after rest2
            else if d = Char.ofNat 96 then before ++ getSubstitution matched before after rest2
            else if d = '\'' then after ++ getSubstitution matched before after rest2
            else '$' :: d :: getSubstitution matched before after rest2
          else c :: getSubstitution matched before after (d :: rest2)) =
          c :: getSubstitution matched before after (d :: rest2)
        rw [if_neg hc]
    rw [he, ih fun hm => h (List.mem_cons_of_mem c hm)]

theorem rff_cons (m : List Char → Option (List Char)) (r pre : List Char) (c : Char)
    (cs : List Char) :
    replaceFirstFrom m r pre (c :: cs) =
      match m (c :: cs) with
      | some rest => getSubstitution (matchedPart (c :: cs) rest) pre rest r ++ rest
      | none => c :: replaceFirstFrom m r (pre ++ [c]) cs := by
  rw [replaceFirstFrom]

theorem rff_cons_none {m : List Char → Option (List Char)} {r pre : List Char} {c : Char}
    {cs : List Char} (h : m (c :: cs) = none) :
    replaceFirstFrom m r pre (c :: cs) = c :: replaceFirstFrom m r (pre ++ [c]) cs := by
  rw [rff_cons, h]

theorem rff_cons_some {m : List Char → Option (List Char)} {r pre : List Char} {c : Char}
    {cs rest : List Char} (h : m (c :: cs) = some rest) :
    replaceFirstFrom m r pre (c :: cs) =
      getSubstitution (matchedPart (c :: cs) rest) pre rest r ++ rest := by
  rw [rff_cons, h]

theorem rff_nil {m : List Char → Option (List Char)} (h : m [] = none) (r pre : List Char) :
    replaceFirstFrom m r pre [] = [] := by
  rw [replaceFirstFrom, h]

theorem rff_match_lit {m : List Char → Option (List Char)} {r : List Char} {pre : List Char}
    {s rest : List Char} (h : m s = some rest) (hr : '$' ∉ r) :
    replaceFirstFrom m r pre s = r ++ rest := by
  match s with
  | [] =>
    rw [replaceFirstFrom, h]
    show getSubstitution (matchedPart [] rest) pre rest r ++ rest = r ++ rest
    rw [getSubstitution_no_dollar hr]
  | c :: cs => rw [rff_cons_some h, getSubstitution_no_dollar hr]

theorem rff_skip {m : List Char → Option (List Char)} {r : List Char}
    (hm : ∀ c cs, c ≠ '<' → m (c :: cs) = none)
    {f : List Char} : ∀ {pre : List Char}, '<' ∉ f → ∀ s,
    replaceFirstFrom m r pre (f ++ s) = f ++ replaceFirstFrom m r (pre ++ f) s := by
  induction f with
  | nil => intro pre _ s; rw [List.nil_append, List.append_nil, List.nil_append]
  | cons c cs ih =>
    intro pre hf s
    have hc : c ≠ '<' := fun h => hf (h ▸ List.mem_cons_self c cs)
    rw [List.cons_append, rff_cons_none (hm c (cs ++ s) hc),
      ih (fun h => hf (List.mem_cons_of_mem c h)) s,
      List.append_assoc, List.singleton_append, List.cons_append]

theorem rff_piece_skip {m : List Char → Option (List Char)} {r : List Char}
    (hm : ∀ c cs, c ≠ '<' → m (c :: cs) = none)
    {piece tr : List Char} (hpiece : piece = '<' :: tr) (htr : '<' ∉ tr)
    {s : List Char} {pre : List Char} (hfail : m (piece ++ s) = none) :
    replaceFirstFrom m r pre (piece ++ s) = piece ++ replaceFirstFrom m r (pre ++ piece) s := by
  subst hpiece
  rw [List.cons_append] at hfail
  rw [List.cons_append, rff_cons_none hfail, rff_skip hm htr s,
    List.append_assoc, List.singleton_append, List.cons_append]

theorem rff_id_of_no_match {m : List Char → Option (List Char)} {r : List Char} :
    ∀ {s : List Char}, (∀ p q, s = p ++ q → m q = none) → ∀ pre,
      replaceFirstFrom m r pre s = s := by
  intro s
  induction s with
  | nil => intro h pre; exact rff_nil (h [] [] rfl) r pre
  | cons c cs ih =>
    intro h pre
    rw [rff_cons_none (h [] (c :: cs) rfl),
      ih (fun p q hpq => h (c :: p) q (by simp [hpq])) (pre ++ [c])]

theorem rff_first_match_lit {m : List Char → Option (List Char)} {r rest : List Char}
    (hr : '$' ∉ r) :
    ∀ {p t : List Char},
      (∀ p1 p2, p = p1 ++ p2 → p2 ≠ [] → m (p2 ++ t) = none) →
      m t = some rest → ∀ pre,
      replaceFirstFrom m r pre (p ++ t) = p ++ (r ++ rest) := by
  intro p
  induction p with
  | nil => intro t _ hm pre; rw [List.nil_append]; exact rff_match_lit hm hr
  | cons c cs ih =>
    intro t hno hm pre
    have h0 : m ((c :: cs) ++ t) = none := hno [] (c :: cs) rfl (by simp)
    rw [List.cons_append] at h0 ⊢
    rw [rff_cons_none h0,
      ih (fun p1 p2 hp hne => hno (c :: p1) p2 (by simp [hp]) hne) hm (pre ++ [c]),
      List.cons_append]

/-! ### Facts about the individual matchers -/

theorem matchAttrTagAt_ne_lt {ot a k : List Char} :
    ∀ c cs, c ≠ '<' → matchAttrTagAt ('<' :: ot) a k (c :: cs) = none := by
  intro c cs hc
  have hl : lowerChar c ≠ '<' := fun h => hc (lowerChar_eq_lt h)
  have h1 : dropLit true ('<' :: ot) (c :: cs) = none := by
    show (if lowerChar c = '<' then dropLit true ot cs else none) = none
    rw [if_neg hl]
  simp [matchAttrTagAt, h1]

theorem matchTitleAt_ne_lt : ∀ c cs, c ≠ '<' → matchTitleAt (c :: cs) = none := by
  intro c cs hc
  have h1 : dropLit false "<title>".data (c :: cs) = none := by
    show (if c = '<' then dropLit false "title>".data cs else none) = none
    rw [if_neg hc]
  simp [matchTitleAt, h1]

theorem matchDescriptionAt_ne_lt : ∀ c cs, c ≠ '<' → matchDescriptionAt (c :: cs) = none :=
  fun c cs hc => matchAttrTagAt_ne_lt c cs hc

theorem matchKeywordsAt_ne_lt : ∀ c cs, c ≠ '<' → matchKeywordsAt (c :: cs) = none :=
  fun c cs hc => matchAttrTagAt_ne_lt c cs hc

theorem matchOgTitleAt_ne_lt : ∀ c cs, c ≠ '<' → matchOgTitleAt (c :: cs) = none :=
  fun c cs hc => matchAttrTagAt_ne_lt c cs hc

theorem matchOgDescriptionAt_ne_lt : ∀ c cs, c ≠ '<' → matchOgDescriptionAt (c :: cs) = none :=
  fun c cs hc => matchAttrTagAt_ne_lt c cs hc

theorem matchOgImageAt_ne_lt : ∀ c cs, c ≠ '<' → matchOgImageAt (c :: cs) = none :=
  fun c cs hc => matchAttrTagAt_ne_lt c cs hc

theorem matchTwitterTitleAt_ne_lt : ∀ c cs, c ≠ '<' → matchTwitterTitleAt (c :: cs) = none :=
  fun c cs hc => matchAttrTagAt_ne_lt c cs hc

theorem matchTwitterDescriptionAt_ne_lt :
    ∀ c cs, c ≠ '<' → matchTwitterDescriptionAt (c :: cs) = none :=
  fun c cs hc => matchAttrTagAt_ne_lt c cs hc

theorem matchCanonicalAt_ne_lt : ∀ c cs, c ≠ '<' → matchCanonicalAt (c :: cs) = none :=
  fun c cs hc => matchAttrTagAt_ne_lt c cs hc

theorem titleNil : matchTitleAt [] = none := rfl

theorem descNil : matchDescriptionAt [] = none := rfl

theorem kwNil : matchKeywordsAt [] = none := rfl

theorem ogtNil : matchOgTitleAt [] = none := rfl

theorem ogdNil : matchOgDescriptionAt [] = none := rfl

theorem ogiNil : matchOgImageAt [] = none := rfl

theorem twtNil : matchTwitterTitleAt [] = none := rfl

theorem twdNil : matchTwitterDescriptionAt [] = none := rfl

theorem canNil : matchCanonicalAt [] = none := rfl

theorem descFail_pt (z : List Char) : matchDescriptionAt ("<title>".data ++ z) = none := rfl

theorem descFail_ptc (z : List Char) : matchDescriptionAt ("</title>".data ++ z) = none := rfl

theorem descFail_pk (z : List Char) :
    matchDescriptionAt ("<meta name=\"keywords\" content=\"".data ++ z) = none := rfl

theorem descFail_ph (z : List Char) : matchDescriptionAt ("</head>".data ++ z) = none := rfl

theorem kwFail_pt (z : List Char) : matchKeywordsAt ("<title>".data ++ z) = none := rfl

theorem kwFail_ptc (z : List Char) : matchKeywordsAt ("</title>".data ++ z) = none := rfl

theorem kwFail_pd (z : List Char) :
    matchKeywordsAt ("<meta name=\"description\" content=\"".data ++ z) = none := rfl

theorem kwFail_ph (z : List Char) : matchKeywordsAt ("</head>".data ++ z) = none := rfl

theorem ogtFail_pt (z : List Char) : matchOgTitleAt ("<title>".data ++ z) = none := rfl

theorem ogtFail_ptc (z : List Char) : matchOgTitleAt ("</title>".data ++ z) = none := rfl

theorem ogtFail_pd (z : List Char) :
    matchOgTitleAt ("<meta name=\"description\" content=\"".data ++ z) = none := rfl

theorem ogtFail_pk (z : List Char) :
    matchOgTitleAt ("<meta name=\"keywords\" content=\"".data ++ z) = none := rfl

theorem ogtFail_ph (z : List Char) : matchOgTitleAt ("</head>".data ++ z) = none := rfl

theorem ogdFail_pt (z : List Char) : matchOgDescriptionAt ("<title>".data ++ z) = none := rfl

theorem ogdFail_ptc (z : List Char) : matchOgDescriptionAt ("</title>".data ++ z) = none := rfl

theorem ogdFail_pd (z : List Char) :
    matchOgDescriptionAt ("<meta name=\"description\" content=\"".data ++ z) = none := rfl

theorem ogdFail_pk (z : List Char) :
    matchOgDescriptionAt ("<meta name=\"keywords\" content=\"".data ++ z) = none := rfl

theorem ogdFail_ph (z : List Char) : matchOgDescriptionAt ("</head>".data ++ z) = none := rfl

theorem ogiFail_pt (z : List Char) : matchOgImageAt ("<title>".data ++ z) = none := rfl

theorem ogiFail_ptc (z : List Char) : matchOgImageAt ("</title>".data ++ z) = none := rfl

theorem ogiFail_pd (z : List Char) :
    matchOgImageAt ("<meta name=\"description\" content=\"".data ++ z) = none := rfl

theorem ogiFail_pk (z : List Char) :
    matchOgImageAt ("<meta name=\"keywords\" content=\"".data ++ z) = none := rfl

theorem ogiFail_ph (z : List Char) : matchOgImageAt ("</head>".data ++ z) = none := rfl

theorem twtFail_pt (z : List Char) : matchTwitterTitleAt ("<title>".data ++ z) = none := rfl

theorem twtFail_ptc (z : List Char) : matchTwitterTitleAt ("</title>".data ++ z) = none := rfl

theorem twtFail_pd (z : List Char) :
    matchTwitterTitleAt ("<meta name=\"description\" content=\"".data ++ z) = none := rfl

theorem twtFail_pk (z : List Char) :
    matchTwitterTitleAt ("<meta name=\"keywords\" content=\"".data ++ z) = none := rfl

theorem twtFail_ph (z : List Char) : matchTwitterTitleAt ("</head>".data ++ z) = none := rfl

theorem twdFail_pt (z : List Char) :
    matchTwitterDescriptionAt ("<title>".data ++ z) = none := rfl

theorem twdFail_ptc (z : List Char) :
    matchTwitterDescriptionAt ("</title>".data ++ z) = none := rfl

theorem twdFail_pd (z : List Char) :
    matchTwitterDescriptionAt ("<meta name=\"description\" content=\"".data ++ z) = none := rfl

theorem twdFail_pk (z : List Char) :
    matchTwitterDescriptionAt ("<meta name=\"keywords\" content=\"".data ++ z) = none := rfl

theorem twdFail_ph (z : List Char) :
    matchTwitterDescriptionAt ("</head>".data ++ z) = none := rfl

theorem canFail_pt (z : List Char) : matchCanonicalAt ("<title>".data ++ z) = none := rfl

theorem canFail_ptc (z : List Char) : matchCanonicalAt ("</title>".data ++ z) = none := rfl

theorem canFail_pd (z : List Char) :
    matchCanonicalAt ("<meta name=\"description\" content=\"".data ++ z) = none := rfl

theorem canFail_pk (z : List Char) :
    matchCanonicalAt ("<meta name=\"keywords\" content=\"".data ++ z) = none := rfl

theorem canFail_ph (z : List Char) : matchCanonicalAt ("</head>".data ++ z) = none := rfl

/-! ### Positive match lemmas -/

theorem isSpaceJs_lowerChar {c : Char} (h : isSpaceJs c = true) : lowerChar c = c := by
  unfold isSpaceJs at h
  simp only [Bool.or_eq_true, decide_eq_true_eq, Bool.and_eq_true] at h
  rcases h with ((((((((((((((h | h) | h) | h) | h) | h) | h) | h) | ⟨h1, h2⟩) | h) | h) | h) | h) | h) | h) <;>
    first
      | (subst h; decide)
      | (unfold lowerChar
         rw [if_neg]
         omega)

theorem not_space_of_map {c x : Char} (h : lowerChar c = x) (hx : isSpaceJs x = false) :
    isSpaceJs c = false := by
  by_cases hc : isSpaceJs c
  · rw [isSpaceJs_lowerChar hc] at h
    subst h
    rw [hc] at hx
    exact absurd hx (by simp)
  · simpa using hc

theorem dropWhile_id_of_head {p : Char → Bool} {l : List Char} {c : Char} {cs : List Char}
    (hl : l = c :: cs) (hc : p c = false) : l.dropWhile p = l := by
  subst hl
  rw [List.dropWhile_cons, if_neg (by simp [hc])]

theorem dropSpaces1_run {w : List Char} (hwne : w ≠ []) (hw : ∀ c ∈ w, isSpaceJs c = true)
    {u : List Char} (hu : u.dropWhile isSpaceJs = u) :
    dropSpaces1 (w ++ u) = some u := by
  match w with
  | d :: ds =>
    show (if isSpaceJs d then some ((ds ++ u).dropWhile isSpaceJs) else none) = some u
    rw [if_pos (hw d (List.mem_cons_self d ds)),
      dropWhile_append_all (fun e he => hw e (List.mem_cons_of_mem d he)), hu]

theorem dropLit_quote (u : List Char) : dropLit true "\"".data ('"' :: u) = some u := rfl

theorem dropLit_gt (u : List Char) : dropLit true ">".data ('>' :: u) = some u := rfl

theorem dropSlashOpt_slash (u : List Char) : dropSlashOpt ('/' :: u) = u := rfl

theorem dropSlashOpt_gt (u : List Char) : dropSlashOpt ('>' :: u) = '>' :: u := rfl

theorem matchTitleAt_flex {t : List Char} (ht : '<' ∉ t) (rest : List Char) :
    matchTitleAt ("<title>".data ++ (t ++ ("</title>".data ++ rest))) = some rest := by
  unfold matchTitleAt
  rw [dropLit_false_append]
  simp only [Option.bind]
  have ht' : ∀ c ∈ t, (c != '<') = true := fun c hc => by
    simp only [bne_iff_ne, ne_eq]
    exact fun h => ht (h ▸ hc)
  rw [dropWhile_append_all ht',
    dropWhile_id_of_head (show "</title>".data ++ rest = '<' :: ("/title>".data ++ rest) from rfl)
      (by decide),
    dropLit_false_append]

theorem tail_stage_true (rest : List Char) :
    dropLit true ">".data (dropSlashOpt (('/' :: ('>' :: rest)).dropWhile isSpaceJs)) =
      some rest := by
  rw [dropWhile_id_of_head rfl (by decide), dropSlashOpt_slash, dropLit_gt]

theorem tail_stage_false (rest : List Char) :
    dropLit true ">".data (dropSlashOpt (('>' :: rest).dropWhile isSpaceJs)) = some rest := by
  rw [dropWhile_id_of_head rfl (by decide), dropSlashOpt_gt, dropLit_gt]

/-- The attr-tag regex accepts any spelling that lower-cases to the pattern,
with arbitrary whitespace runs, a quote-free value, and an optional slash. -/
theorem matchAttrTagAt_flex {ot a k : List Char} {o w1 av w2 kv v ws : List Char}
    (sl : Bool) (rest : List Char)
    (ho : o.map lowerChar = ot)
    (hw1ne : w1 ≠ []) (hw1 : ∀ c ∈ w1, isSpaceJs c = true)
    (ha : av.map lowerChar = a)
    (hane : av ≠ []) (hah : av.dropWhile isSpaceJs = av)
    (hw2ne : w2 ≠ []) (hw2 : ∀ c ∈ w2, isSpaceJs c = true)
    (hk : kv.map lowerChar = k)
    (hkne : kv ≠ []) (hkh : kv.dropWhile isSpaceJs = kv)
    (hv : '"' ∉ v) (hws : ∀ c ∈ ws, isSpaceJs c = true) :
    matchAttrTagAt ot a k
      (o ++ (w1 ++ (av ++ (w2 ++ (kv ++ (v ++ ('"' :: (ws ++
        ((if sl then ['/'] else []) ++ ('>' :: rest)))))))))) = some rest := by
  obtain ⟨ac, acs, rfl⟩ : ∃ c cs, av = c :: cs := by
    match av, hane with
    | c :: cs, _ => exact ⟨c, cs, rfl⟩
  obtain ⟨kc, kcs, rfl⟩ : ∃ c cs, kv = c :: cs := by
    match kv, hkne with
    | c :: cs, _ => exact ⟨c, cs, rfl⟩
  have hac : isSpaceJs ac = false := dropWhile_head_false hah
  have hkc : isSpaceJs kc = false := dropWhile_head_false hkh
  have hv' : ∀ c ∈ v, (c != '"') = true := fun c hc => by
    simp only [bne_iff_ne, ne_eq]
    exact fun h => hv (h ▸ hc)
  unfold matchAttrTagAt
  rw [dropLit_true_append ho]
  simp only [Option.bind]
  rw [dropSpaces1_run hw1ne hw1 (dropWhile_id_of_head (List.cons_append ac acs _) hac)]
  simp only [Option.bind]
  rw [dropLit_true_append ha]
  simp only [Option.bind]
  rw [dropSpaces1_run hw2ne hw2 (dropWhile_id_of_head (List.cons_append kc kcs _) hkc)]
  simp only [Option.bind]
  rw [dropLit_true_append hk]
  simp only [Option.bind]
  rw [dropWhile_append_all hv', dropWhile_id_of_head rfl (by decide), dropLit_quote]
  simp only [Option.bind]
  rw [dropWhile_append_all hws]
  cases sl
  · simpa using tail_stage_false rest
  · simpa using tail_stage_true rest

theorem matchDescriptionAt_canonical {v : List Char} (hv : '"' ∉ v) (rest : List Char) :
    matchDescriptionAt
      ("<meta name=\"description\" content=\"".data ++ (v ++ ("\" />".data ++ rest))) =
      some rest := by
  have hshape : "<meta name=\"description\" content=\"".data ++ (v ++ ("\" />".data ++ rest)) =
      "<meta".data ++ ([' '] ++ ("name=\"description\"".data ++ ([' '] ++
        ("content=\"".data ++ (v ++ ('"' :: ([' '] ++ (['/'] ++ ('>' :: rest))))))))) := by
    simp only [List.append_assoc, List.cons_append, List.nil_append]
  rw [hshape]
  exact matchAttrTagAt_flex true rest (by decide) (by decide) (by decide) (by decide)
    (by decide) (by decide) (by decide) (by decide) (by decide) (by decide) (by decide)
    hv (by decide)

theorem matchKeywordsAt_canonical {v : List Char} (hv : '"' ∉ v) (rest : List Char) :
    matchKeywordsAt
      ("<meta name=\"keywords\" content=\"".data ++ (v ++ ("\" />".data ++ rest))) =
      some rest := by
  have hshape : "<meta name=\"keywords\" content=\"".data ++ (v ++ ("\" />".data ++ rest)) =
      "<meta".data ++ ([' '] ++ ("name=\"keywords\"".data ++ ([' '] ++
        ("content=\"".data ++ (v ++ ('"' :: ([' '] ++ (['/'] ++ ('>' :: rest))))))))) := by
    simp only [List.append_assoc, List.cons_append, List.nil_append]
  rw [hshape]
  exact matchAttrTagAt_flex true rest (by decide) (by decide) (by decide) (by decide)
    (by decide) (by decide) (by decide) (by decide) (by decide) (by decide) (by decide)
    hv (by decide)

/-! ### Scanning lemmas for `insertBeforeFirst` -/

theorem isPrefixList_ne_head {st : List Char} {c : Char} (hc : c ≠ '<') (u : List Char) :
    isPrefixList ('<' :: st) (c :: u) = false := by
  have h1 : ¬('<' = c) := fun h => hc h.symm
  show (decide ('<' = c) && isPrefixList st u) = false
  simp [h1]

theorem ibf_cons_not {sub ins : List Char} {c : Char} {cs : List Char}
    (h : isPrefixList sub (c :: cs) = false) :
    insertBeforeFirst sub ins (c :: cs) = c :: insertBeforeFirst sub ins cs := by
  unfold insertBeforeFirst
  have hidx : indexOfSub sub (c :: cs) = (indexOfSub sub cs).map (· + 1) := by
    show (if isPrefixList sub (c :: cs) then some 0 else (indexOfSub sub cs).map (· + 1)) = _
    rw [h]
    simp
  rw [hidx]
  cases hrec : indexOfSub sub cs with
  | none => simp
  | some i => simp [List.take_succ_cons, List.drop_succ_cons]

theorem ibf_match {sub ins t : List Char} (hpre : isPrefixList sub t = true) :
    insertBeforeFirst sub ins t = ins ++ t := by
  unfold insertBeforeFirst
  have hidx : indexOfSub sub t = some 0 := by
    match t with
    | [] =>
      show (if isPrefixList sub [] then some 0 else none) = some 0
      rw [hpre]
      simp
    | c :: cs =>
      show (if isPrefixList sub (c :: cs) then some 0 else (indexOfSub sub cs).map (· + 1)) =
        some 0
      rw [hpre]
      simp
  rw [hidx]
  simp

theorem ibf_skip {sub st : List Char} (hsub : sub = '<' :: st) {ins : List Char}
    {f : List Char} (hf : '<' ∉ f) (s : List Char) :
    insertBeforeFirst sub ins (f ++ s) = f ++ insertBeforeFirst sub ins s := by
  induction f with
  | nil => rfl
  | cons c cs ih =>
    have hc : c ≠ '<' := fun h => hf (h ▸ List.mem_cons_self c cs)
    have hpf : isPrefixList sub (c :: (cs ++ s)) = false := by
      rw [hsub]
      exact isPrefixList_ne_head hc (cs ++ s)
    rw [List.cons_append, ibf_cons_not hpf, ih fun h => hf (List.mem_cons_of_mem c h),
      List.cons_append]

theorem ibf_piece_skip {sub st piece tr : List Char} (hsub : sub = '<' :: st)
    (hpiece : piece = '<' :: tr) (htr : '<' ∉ tr) {ins s : List Char}
    (hfail : isPrefixList sub (piece ++ s) = false) :
    insertBeforeFirst sub ins (piece ++ s) = piece ++ insertBeforeFirst sub ins s := by
  subst hpiece
  rw [List.cons_append] at hfail ⊢
  rw [ibf_cons_not hfail, ibf_skip hsub htr s, List.cons_append]

theorem phFail_pt (z : List Char) : isPrefixList "</head>".data ("<title>".data ++ z) = false :=
  rfl

theorem phFail_ptc (z : List Char) :
    isPrefixList "</head>".data ("</title>".data ++ z) = false := rfl

theorem phFail_pd (z : List Char) :
    isPrefixList "</head>".data ("<meta name=\"description\" content=\"".data ++ z) = false :=
  rfl

/-! ### Shell-document lemmas -/

theorem rff_id_free {m : List Char → Option (List Char)} {r : List Char}
    (hm : ∀ c cs, c ≠ '<' → m (c :: cs) = none) (hnil : m [] = none)
    {f : List Char} (hf : '<' ∉ f) {pre : List Char} :
    replaceFirstFrom m r pre f = f := by
  have h := @rff_skip m r hm f pre hf []
  rw [List.append_nil] at h
  rw [h, rff_nil hnil, List.append_nil]

theorem dollar_not_mem_titleTag {v : List Char} (hv : '$' ∉ v) : '$' ∉ titleTagText v := by
  intro h
  unfold titleTagText at h
  rcases List.mem_append.mp h with h1 | h1
  · rcases List.mem_append.mp h1 with h2 | h2
    · exact absurd h2 (by decide)
    · exact hv h2
  · exact absurd h1 (by decide)

theorem dollar_not_mem_metaName {n v : List Char} (hn : '$' ∉ n) (hv : '$' ∉ v) :
    '$' ∉ metaNameText n v := by
  intro h
  unfold metaNameText at h
  rcases List.mem_append.mp h with h1 | h1
  · rcases List.mem_append.mp h1 with h2 | h2
    · rcases List.mem_append.mp h2 with h3 | h3
      · rcases List.mem_append.mp h3 with h4 | h4
        · exact absurd h4 (by decide)
        · exact hn h4
      · exact absurd h3 (by decide)
    · exact hv h2
  · exact absurd h1 (by decide)

theorem titleTagText_append (v rest : List Char) :
    titleTagText v ++ rest = "<title>".data ++ (v ++ ("</title>".data ++ rest)) := by
  simp only [titleTagText, List.append_assoc]

theorem metaNameText_desc_append (v rest : List Char) :
    metaNameText "description".data v ++ rest =
      "<meta name=\"description\" content=\"".data ++ (v ++ ("\" />".data ++ rest)) := by
  simp only [metaNameText, List.append_assoc, List.cons_append, List.nil_append]

theorem metaNameText_kw_append (v rest : List Char) :
    metaNameText "keywords".data v ++ rest =
      "<meta name=\"keywords\" content=\"".data ++ (v ++ ("\" />".data ++ rest)) := by
  simp only [metaNameText, List.append_assoc, List.cons_append, List.nil_append]

theorem shellDoc_expand_none (f0 t f1 d f2 f3 : List Char) :
    shellDoc f0 t f1 d f2 none f3 =
      f0 ++ ("<title>".data ++ (t ++ ("</title>".data ++ (f1 ++
        ("<meta name=\"description\" content=\"".data ++ (d ++ ("\" />".data ++ (f2 ++
          ("</head>".data ++ f3))))))))) := by
  simp only [shellDoc, titleTagText, metaNameText, shellKwPart, List.append_assoc,
    List.cons_append, List.nil_append]

theorem shellDoc_expand_some (f0 t f1 d f2 k f3 : List Char) :
    shellDoc f0 t f1 d f2 (some k) f3 =
      f0 ++ ("<title>".data ++ (t ++ ("</title>".data ++ (f1 ++
        ("<meta name=\"description\" content=\"".data ++ (d ++ ("\" />".data ++ (f2 ++
          ("    ".data ++ ("<meta name=\"keywords\" content=\"".data ++ (k ++
            ("\" />".data ++ ("\n".data ++ ("</head>".data ++ f3)))))))))))))) := by
  simp only [shellDoc, titleTagText, metaNameText, shellKwPart, List.append_assoc,
    List.cons_append, List.nil_append]

theorem rff_shell_id {m : List Char → Option (List Char)} {r : List Char}
    (hm : ∀ c cs, c ≠ '<' → m (c :: cs) = none) (hnil : m [] = none)
    (hPT : ∀ z, m ("<title>".data ++ z) = none)
    (hPTc : ∀ z, m ("</title>".data ++ z) = none)
    (hPD : ∀ z, m ("<meta name=\"description\" content=\"".data ++ z) = none)
    (hPH : ∀ z, m ("</head>".data ++ z) = none)
    {f0 t f1 d f2 f3 : List Char} {kw : Option (List Char)}
    (hPK : ∀ k, kw = some k →
      ∀ z, m ("<meta name=\"keywords\" content=\"".data ++ z) = none)
    (hf0 : '<' ∉ f0) (ht : '<' ∉ t) (hf1 : '<' ∉ f1) (hd : '<' ∉ d) (hf2 : '<' ∉ f2)
    (hkw : ∀ k, kw = some k → '<' ∉ k) (hf3 : '<' ∉ f3) {pre : List Char} :
    replaceFirstFrom m r pre (shellDoc f0 t f1 d f2 kw f3) = shellDoc f0 t f1 d f2 kw f3 := by
  cases kw with
  | none =>
    rw [shellDoc_expand_none]
    rw [rff_skip hm hf0,
      rff_piece_skip hm (show ("<title>".data : List Char) = '<' :: "title>".data from rfl)
        (by decide) (hPT _),
      rff_skip hm ht,
      rff_piece_skip hm (show ("</title>".data : List Char) = '<' :: "/title>".data from rfl)
        (by decide) (hPTc _),
      rff_skip hm hf1,
      rff_piece_skip hm
        (show ("<meta name=\"description\" content=\"".data : List Char) =
          '<' :: "meta name=\"description\" content=\"".data from rfl) (by decide) (hPD _),
      rff_skip hm hd,
      rff_skip hm (show '<' ∉ "\" />".data by decide),
      rff_skip hm hf2,
      rff_piece_skip hm (show ("</head>".data : List Char) = '<' :: "/head>".data from rfl)
        (by decide) (hPH _),
      rff_id_free hm hnil hf3]
  | some k =>
    rw [shellDoc_expand_some]
    rw [rff_skip hm hf0,
      rff_piece_skip hm (show ("<title>".data : List Char) = '<' :: "title>".data from rfl)
        (by decide) (hPT _),
      rff_skip hm ht,
      rff_piece_skip hm (show ("</title>".data : List Char) = '<' :: "/title>".data from rfl)
        (by decide) (hPTc _),
      rff_skip hm hf1,
      rff_piece_skip hm
        (show ("<meta name=\"description\" content=\"".data : List Char) =
          '<' :: "meta name=\"description\" content=\"".data from rfl) (by decide) (hPD _),
      rff_skip hm hd,
      rff_skip hm (show '<' ∉ "\" />".data by decide),
      rff_skip hm hf2,
      rff_skip hm (show '<' ∉ "    ".data by decide),
      rff_piece_skip hm
        (show ("<meta name=\"keywords\" content=\"".data : List Char) =
          '<' :: "meta name=\"keywords\" content=\"".data from rfl) (by decide)
        (hPK k rfl _),
      rff_skip hm (hkw k rfl),
      rff_skip hm (show '<' ∉ "\" />".data by decide),
      rff_skip hm (show '<' ∉ "\n".data by decide),
      rff_piece_skip hm (show ("</head>".data : List Char) = '<' :: "/head>".data from rfl)
        (by decide) (hPH _),
      rff_id_free hm hnil hf3]

theorem stepTitle_shell (sd : SeoTagSet) {f0 t f1 d f2 f3 : List Char} {kw : Option (List Char)}
    (hf0 : '<' ∉ f0) (ht : '<' ∉ t) (hT4 : '$' ∉ sd.title) :
    stepTitle sd (shellDoc f0 t f1 d f2 kw f3) =
      shellDoc f0 (escQuotes sd.title) f1 d f2 kw f3 := by
  have hr : '$' ∉ titleTagText (escQuotes sd.title) :=
    dollar_not_mem_titleTag (escQuotes_not_mem hT4 (by decide))
  unfold stepTitle replaceFirst shellDoc
  rw [titleTagText_append, titleTagText_append]
  rw [rff_skip matchTitleAt_ne_lt hf0, rff_match_lit (matchTitleAt_flex ht _) hr,
    titleTagText_append]

theorem stepDescription_shell (sd : SeoTagSet) {f0 t f1 d f2 f3 : List Char}
    {kw : Option (List Char)}
    (hf0 : '<' ∉ f0) (ht : '<' ∉ t) (hf1 : '<' ∉ f1) (hdq : '"' ∉ d)
    (hD4 : '$' ∉ sd.description) :
    stepDescription sd (shellDoc f0 t f1 d f2 kw f3) =
      shellDoc f0 t f1 (escQuotes sd.description) f2 kw f3 := by
  have hr : '$' ∉ metaNameText "description".data (escQuotes sd.description) :=
    dollar_not_mem_metaName (by decide) (escQuotes_not_mem hD4 (by decide))
  unfold stepDescription replaceFirst shellDoc
  rw [titleTagText_append, titleTagText_append, metaNameText_desc_append,
    metaNameText_desc_append]
  rw [rff_skip matchDescriptionAt_ne_lt hf0,
    rff_piece_skip matchDescriptionAt_ne_lt
      (show ("<title>".data : List Char) = '<' :: "title>".data from rfl) (by decide)
      (descFail_pt _),
    rff_skip matchDescriptionAt_ne_lt ht,
    rff_piece_skip matchDescriptionAt_ne_lt
      (show ("</title>".data : List Char) = '<' :: "/title>".data from rfl) (by decide)
      (descFail_ptc _),
    rff_skip matchDescriptionAt_ne_lt hf1,
    rff_match_lit (matchDescriptionAt_canonical hdq _) hr,
    metaNameText_desc_append]

theorem stepOgTitle_shell (sd : SeoTagSet) {f0 t f1 d f2 f3 : List Char}
    {kw : Option (List Char)}
    (hf0 : '<' ∉ f0) (ht : '<' ∉ t) (hf1 : '<' ∉ f1) (hd : '<' ∉ d) (hf2 : '<' ∉ f2)
    (hkw : ∀ k, kw = some k → '<' ∉ k) (hf3 : '<' ∉ f3) :
    stepOgTitle sd (shellDoc f0 t f1 d f2 kw f3) = shellDoc f0 t f1 d f2 kw f3 := by
  unfold stepOgTitle replaceFirst
  rw [rff_shell_id matchOgTitleAt_ne_lt ogtNil ogtFail_pt ogtFail_ptc ogtFail_pd ogtFail_ph
    (fun _ _ z => ogtFail_pk z) hf0 ht hf1 hd hf2 hkw hf3]
  exact ite_self _

theorem stepOgDescription_shell (sd : SeoTagSet) {f0 t f1 d f2 f3 : List Char}
    {kw : Option (List Char)}
    (hf0 : '<' ∉ f0) (ht : '<' ∉ t) (hf1 : '<' ∉ f1) (hd : '<' ∉ d) (hf2 : '<' ∉ f2)
    (hkw : ∀ k, kw = some k → '<' ∉ k) (hf3 : '<' ∉ f3) :
    stepOgDescription sd (shellDoc f0 t f1 d f2 kw f3) = shellDoc f0 t f1 d f2 kw f3 := by
  unfold stepOgDescription replaceFirst
  rw [rff_shell_id matchOgDescriptionAt_ne_lt ogdNil ogdFail_pt ogdFail_ptc ogdFail_pd ogdFail_ph
    (fun _ _ z => ogdFail_pk z) hf0 ht hf1 hd hf2 hkw hf3]
  exact ite_self _

theorem stepTwitterTitle_shell (sd : SeoTagSet) {f0 t f1 d f2 f3 : List Char}
    {kw : Option (List Char)}
    (hf0 : '<' ∉ f0) (ht : '<' ∉ t) (hf1 : '<' ∉ f1) (hd : '<' ∉ d) (hf2 : '<' ∉ f2)
    (hkw : ∀ k, kw = some k → '<' ∉ k) (hf3 : '<' ∉ f3) :
    stepTwitterTitle sd (shellDoc f0 t f1 d f2 kw f3) = shellDoc f0 t f1 d f2 kw f3 := by
  unfold stepTwitterTitle replaceFirst
  rw [rff_shell_id matchTwitterTitleAt_ne_lt twtNil twtFail_pt twtFail_ptc twtFail_pd twtFail_ph
    (fun _ _ z => twtFail_pk z) hf0 ht hf1 hd hf2 hkw hf3]
  exact ite_self _

theorem stepTwitterDescription_shell (sd : SeoTagSet) {f0 t f1 d f2 f3 : List Char}
    {kw : Option (List Char)}
    (hf0 : '<' ∉ f0) (ht : '<' ∉ t) (hf1 : '<' ∉ f1) (hd : '<' ∉ d) (hf2 : '<' ∉ f2)
    (hkw : ∀ k, kw = some k → '<' ∉ k) (hf3 : '<' ∉ f3) :
    stepTwitterDescription sd (shellDoc f0 t f1 d f2 kw f3) = shellDoc f0 t f1 d f2 kw f3 := by
  unfold stepTwitterDescription replaceFirst
  rw [rff_shell_id matchTwitterDescriptionAt_ne_lt twdNil twdFail_pt twdFail_ptc twdFail_pd
    twdFail_ph (fun _ _ z => twdFail_pk z) hf0 ht hf1 hd hf2 hkw hf3]
  exact ite_self _

theorem stepOgImage_shell (sd : SeoTagSet) {f0 t f1 d f2 f3 : List Char}
    {kw : Option (List Char)}
    (hf0 : '<' ∉ f0) (ht : '<' ∉ t) (hf1 : '<' ∉ f1) (hd : '<' ∉ d) (hf2 : '<' ∉ f2)
    (hkw : ∀ k, kw = some k → '<' ∉ k) (hf3 : '<' ∉ f3) :
    stepOgImage sd (shellDoc f0 t f1 d f2 kw f3) = shellDoc f0 t f1 d f2 kw f3 := by
  unfold stepOgImage replaceFirst
  rw [rff_shell_id matchOgImageAt_ne_lt ogiNil ogiFail_pt ogiFail_ptc ogiFail_pd ogiFail_ph
    (fun _ _ z => ogiFail_pk z) hf0 ht hf1 hd hf2 hkw hf3]
  exact ite_self _

theorem stepCanonical_shell (sd : SeoTagSet) {f0 t f1 d f2 f3 : List Char}
    {kw : Option (List Char)}
    (hf0 : '<' ∉ f0) (ht : '<' ∉ t) (hf1 : '<' ∉ f1) (hd : '<' ∉ d) (hf2 : '<' ∉ f2)
    (hkw : ∀ k, kw = some k → '<' ∉ k) (hf3 : '<' ∉ f3) :
    stepCanonical sd (shellDoc f0 t f1 d f2 kw f3) = shellDoc f0 t f1 d f2 kw f3 := by
  unfold stepCanonical replaceFirst
  rw [rff_shell_id matchCanonicalAt_ne_lt canNil canFail_pt canFail_ptc canFail_pd canFail_ph
    (fun _ _ z => canFail_pk z) hf0 ht hf1 hd hf2 hkw hf3]
  exact ite_self _

theorem shell_some_contains_kw (f0 t f1 d f2 k f3 : List Char) :
    containsSubstring "name=\"keywords\"".data (shellDoc f0 t f1 d f2 (some k) f3) = true := by
  have hdecomp : shellDoc f0 t f1 d f2 (some k) f3 =
      (f0 ++ ("<title>".data ++ (t ++ ("</title>".data ++ (f1 ++
        ("<meta name=\"description\" content=\"".data ++ (d ++ ("\" />".data ++ (f2 ++
          "    <meta ".data))))))))) ++
      ("name=\"keywords\"".data ++
        (" content=\"".data ++ (k ++ ("\" />".data ++ ("\n".data ++
          ("</head>".data ++ f3)))))) := by
    rw [shellDoc_expand_some]
    simp only [List.append_assoc, List.cons_append, List.nil_append]
  rw [hdecomp, containsSubstring_decomp]

theorem kwInsert_expand (k rest : List Char) :
    ("    ".data ++ metaNameText "keywords".data k ++ "\n".data) ++ rest =
      "    ".data ++ ("<meta name=\"keywords\" content=\"".data ++ (k ++
        ("\" />".data ++ ("\n".data ++ rest)))) := by
  simp only [metaNameText, List.append_assoc, List.cons_append, List.nil_append]

theorem stepKeywords_shell (sd : SeoTagSet) {f0 t f1 d f2 f3 : List Char}
    {kw : Option (List Char)}
    (hf0 : '<' ∉ f0) (ht : '<' ∉ t) (hf1 : '<' ∉ f1) (hd : '<' ∉ d)
    (hf2 : '<' ∉ f2) (hkw : ∀ k, kw = some k → '<' ∉ k ∧ '"' ∉ k) (hf3 : '<' ∉ f3)
    (hK4 : '$' ∉ sd.keywords) :
    stepKeywords sd (shellDoc f0 t f1 d f2 kw f3) =
      shellDoc f0 t f1 d f2 (shellKwNext sd kw (shellDoc f0 t f1 d f2 none f3)) f3 := by
  have hr : '$' ∉ metaNameText "keywords".data (escQuotes sd.keywords) :=
    dollar_not_mem_metaName (by decide) (escQuotes_not_mem hK4 (by decide))
  unfold stepKeywords shellKwNext replaceFirst
  by_cases hk0 : sd.keywords = []
  · rw [if_pos hk0, if_pos hk0]
  · rw [if_neg hk0, if_neg hk0]
    cases kw with
    | some k =>
      obtain ⟨hklt, hkq⟩ := hkw k rfl
      show _ = shellDoc f0 t f1 d f2 (some (escQuotes sd.keywords)) f3
      rw [if_pos (shell_some_contains_kw f0 t f1 d f2 k f3)]
      rw [shellDoc_expand_some, shellDoc_expand_some]
      rw [rff_skip matchKeywordsAt_ne_lt hf0,
        rff_piece_skip matchKeywordsAt_ne_lt
          (show ("<title>".data : List Char) = '<' :: "title>".data from rfl) (by decide)
          (kwFail_pt _),
        rff_skip matchKeywordsAt_ne_lt ht,
        rff_piece_skip matchKeywordsAt_ne_lt
          (show ("</title>".data : List Char) = '<' :: "/title>".data from rfl) (by decide)
          (kwFail_ptc _),
        rff_skip matchKeywordsAt_ne_lt hf1,
        rff_piece_skip matchKeywordsAt_ne_lt
          (show ("<meta name=\"description\" content=\"".data : List Char) =
            '<' :: "meta name=\"description\" content=\"".data from rfl) (by decide)
          (kwFail_pd _),
        rff_skip matchKeywordsAt_ne_lt hd,
        rff_skip matchKeywordsAt_ne_lt (show '<' ∉ "\" />".data by decide),
        rff_skip matchKeywordsAt_ne_lt hf2,
        rff_skip matchKeywordsAt_ne_lt (show '<' ∉ "    ".data by decide),
        rff_match_lit (matchKeywordsAt_canonical hkq _) hr,
        metaNameText_kw_append]
    | none =>
      by_cases hcon : containsSubstring "name=\"keywords\"".data
          (shellDoc f0 t f1 d f2 none f3) = true
      · rw [if_pos hcon, if_pos hcon]
        exact rff_shell_id matchKeywordsAt_ne_lt kwNil kwFail_pt kwFail_ptc kwFail_pd kwFail_ph
          (fun k h => Option.noConfusion h) hf0 ht hf1 hd hf2
          (fun k h => Option.noConfusion h) hf3
      · rw [if_neg hcon, if_neg hcon]
        rw [shellDoc_expand_none, shellDoc_expand_some]
        rw [ibf_skip (show ("</head>".data : List Char) = '<' :: "/head>".data from rfl) hf0,
          ibf_piece_skip (show ("</head>".data : List Char) = '<' :: "/head>".data from rfl)
            (show ("<title>".data : List Char) = '<' :: "title>".data from rfl) (by decide)
            (phFail_pt _),
          ibf_skip (show ("</head>".data : List Char) = '<' :: "/head>".data from rfl) ht,
          ibf_piece_skip (show ("</head>".data : List Char) = '<' :: "/head>".data from rfl)
            (show ("</title>".data : List Char) = '<' :: "/title>".data from rfl) (by decide)
            (phFail_ptc _),
          ibf_skip (show ("</head>".data : List Char) = '<' :: "/head>".data from rfl) hf1,
          ibf_piece_skip (show ("</head>".data : List Char) = '<' :: "/head>".data from rfl)
            (show ("<meta name=\"description\" content=\"".data : List Char) =
              '<' :: "meta name=\"description\" content=\"".data from rfl) (by decide)
            (phFail_pd _),
          ibf_skip (show ("</head>".data : List Char) = '<' :: "/head>".data from rfl) hd,
          ibf_skip (show ("</head>".data : List Char) = '<' :: "/head>".data from rfl)
            (show '<' ∉ "\" />".data by decide),
          ibf_skip (show ("</head>".data : List Char) = '<' :: "/head>".data from rfl) hf2,
          ibf_match (isPrefixList_append_self "</head>".data f3),
          kwInsert_expand]

theorem shellKwNext_some_imp (sd : SeoTagSet) {kw : Option (List Char)} {m : List Char}
    (hkw : ∀ k, kw = some k → '<' ∉ k ∧ '"' ∉ k) (hK : '<' ∉ sd.keywords) :
    ∀ k, shellKwNext sd kw m = some k → '<' ∉ k ∧ '"' ∉ k := by
  intro k hk
  unfold shellKwNext at hk
  by_cases h0 : sd.keywords = []
  · rw [if_pos h0] at hk
    exact hkw k hk
  · rw [if_neg h0] at hk
    cases kw with
    | some k0 =>
      have hk2 : some (escQuotes sd.keywords) = some k := hk
      obtain rfl := (Option.some.inj hk2).symm
      exact ⟨escQuotes_not_mem hK (by decide), escQuotes_no_quote _⟩
    | none =>
      by_cases hc : containsSubstring "name=\"keywords\"".data m = true
      · rw [if_pos hc] at hk
        exact absurd hk (by simp)
      · rw [if_neg hc] at hk
        have hk2 : some (escQuotes sd.keywords) = some k := hk
        obtain rfl := (Option.some.inj hk2).symm
        exact ⟨escQuotes_not_mem hK (by decide), escQuotes_no_quote _⟩

theorem shellKwNext_idem (sd : SeoTagSet) (kw : Option (List Char)) (m : List Char) :
    shellKwNext sd (shellKwNext sd kw m) m = shellKwNext sd kw m := by
  unfold shellKwNext
  by_cases h0 : sd.keywords = []
  · simp only [if_pos h0]
  · simp only [if_neg h0]
    cases kw with
    | some k => rfl
    | none =>
      by_cases hc : containsSubstring "name=\"keywords\"".data m = true
      · simp only [if_pos hc]
      · simp only [if_neg hc]

theorem applySeoTags_shell (sd : SeoTagSet) {f0 t f1 d f2 f3 : List Char}
    {kw : Option (List Char)}
    (hf0 : '<' ∉ f0) (hf1 : '<' ∉ f1) (hf2 : '<' ∉ f2) (hf3 : '<' ∉ f3)
    (ht : '<' ∉ t) (hdq : '"' ∉ d)
    (hkw : ∀ k, kw = some k → '<' ∉ k ∧ '"' ∉ k)
    (hT : '<' ∉ sd.title) (hD : '<' ∉ sd.description) (hK : '<' ∉ sd.keywords)
    (hT4 : '$' ∉ sd.title) (hD4 : '$' ∉ sd.description) (hK4 : '$' ∉ sd.keywords) :
    applySeoTags sd (shellDoc f0 t f1 d f2 kw f3) =
      shellDoc f0 (escQuotes sd.title) f1 (escQuotes sd.description) f2
        (shellKwNext sd kw
          (shellDoc f0 (escQuotes sd.title) f1 (escQuotes sd.description) f2 none f3)) f3 := by
  have hTe : '<' ∉ escQuotes sd.title := escQuotes_not_mem hT (by decide)
  have hDe : '<' ∉ escQuotes sd.description := escQuotes_not_mem hD (by decide)
  have hkw1 : ∀ k, kw = some k → '<' ∉ k := fun k h => (hkw k h).1
  unfold applySeoTags
  rw [stepTitle_shell sd hf0 ht hT4,
    stepDescription_shell sd hf0 hTe hf1 hdq hD4,
    stepOgTitle_shell sd hf0 hTe hf1 hDe hf2 hkw1 hf3,
    stepOgDescription_shell sd hf0 hTe hf1 hDe hf2 hkw1 hf3,
    stepKeywords_shell sd hf0 hTe hf1 hDe hf2 hkw hf3 hK4,
    stepTwitterTitle_shell sd hf0 hTe hf1 hDe hf2
      (fun k h => (shellKwNext_some_imp sd hkw hK k h).1) hf3,
    stepTwitterDescription_shell sd hf0 hTe hf1 hDe hf2
      (fun k h => (shellKwNext_some_imp sd hkw hK k h).1) hf3,
    stepOgImage_shell sd hf0 hTe hf1 hDe hf2
      (fun k h => (shellKwNext_some_imp sd hkw hK k h).1) hf3,
    stepCanonical_shell sd hf0 hTe hf1 hDe hf2
      (fun k h => (shellKwNext_some_imp sd hkw hK k h).1) hf3]

theorem applySeoTags_shell_idem (sd : SeoTagSet) {f0 t f1 d f2 f3 : List Char}
    {kw : Option (List Char)}
    (hf0 : '<' ∉ f0) (hf1 : '<' ∉ f1) (hf2 : '<' ∉ f2) (hf3 : '<' ∉ f3)
    (ht : '<' ∉ t) (hdq : '"' ∉ d)
    (hkw : ∀ k, kw = some k → '<' ∉ k ∧ '"' ∉ k)
    (hT : '<' ∉ sd.title) (hD : '<' ∉ sd.description) (hK : '<' ∉ sd.keywords)
    (hT4 : '$' ∉ sd.title) (hD4 : '$' ∉ sd.description) (hK4 : '$' ∉ sd.keywords) :
    applySeoTags sd (applySeoTags sd (shellDoc f0 t f1 d f2 kw f3)) =
      applySeoTags sd (shellDoc f0 t f1 d f2 kw f3) := by
  have hTe : '<' ∉ escQuotes sd.title := escQuotes_not_mem hT (by decide)
  have hDq : '"' ∉ escQuotes sd.description := escQuotes_no_quote _
  rw [applySeoTags_shell sd hf0 hf1 hf2 hf3 ht hdq hkw hT hD hK hT4 hD4 hK4]
  rw [applySeoTags_shell sd hf0 hf1 hf2 hf3 hTe hDq
    (shellKwNext_some_imp sd hkw hK) hT hD hK hT4 hD4 hK4]
  rw [shellKwNext_idem]

/-- The replacement string is subject to `GetSubstitution`: a title value
containing `$&` re-inserts the matched title tag, and `$$` collapses to a
single dollar sign, exactly as `String.prototype.replace` behaves. -/
theorem dollar_substitution_demo :
    stepTitle ⟨"x$&y".data, "D".data, "OT".data, "OD".data, "I".data, [], "U".data⟩
        "<title>old</title>".data =
      "<title>x<title>old</title>y</title>".data ∧
    stepTitle ⟨"a$$b".data, "D".data, "OT".data, "OD".data, "I".data, [], "U".data⟩
        "<title>old</title>".data =
      "<title>a$b</title>".data := by
  constructor
  · decide
  · decide

/-- Why the idempotence result restricts the document to a well-formed
shell and not merely the generated values: even with tame generated values
(no `<`, no `$`, no `"`), a document in which a description `content`
attribute spans a title tag is not handled idempotently.  The first pass
rewrites the title inside the attribute and the description step then
erases it; the second pass rewrites the later, surviving title tag, so
applying the substitution twice differs from applying it once. -/
theorem overlap_nonidempotent_demo :
    ('<' ∉ "New".data ∧ '$' ∉ "New".data ∧ '"' ∉ "New".data ∧
      '<' ∉ "D".data ∧ '$' ∉ "D".data ∧ '"' ∉ "D".data) ∧
    applySeoTags ⟨"New".data, "D".data, "OT".data, "OD".data, "I".data, [], "U".data⟩
        (applySeoTags ⟨"New".data, "D".data, "OT".data, "OD".data, "I".data, [], "U".data⟩
          "<meta name=\"description\" content=\"a<title>x</title>b\"><title>y</title>".data) ≠
      applySeoTags ⟨"New".data, "D".data, "OT".data, "OD".data, "I".data, [], "U".data⟩
        "<meta name=\"description\" content=\"a<title>x</title>b\"><title>y</title>".data := by
  decide

/-! ### First-occurrence characterisations -/

theorem indexOfSub_first_occ {sub : List Char} :
    ∀ {s : List Char} {i : Nat}, indexOfSub sub s = some i →
      isPrefixList sub (s.drop i) = true ∧ ∀ j, j < i → isPrefixList sub (s.drop j) = false := by
  intro s
  induction s with
  | nil =>
    intro i h
    have h2 : (if isPrefixList sub [] then some 0 else none) = some i := h
    by_cases hp : isPrefixList sub [] = true
    · rw [if_pos hp] at h2
      obtain rfl := (Option.some.inj h2).symm
      exact ⟨by simpa using hp, fun j hj => absurd hj (Nat.not_lt_zero j)⟩
    · rw [if_neg hp] at h2
      exact absurd h2 (by simp)
  | cons c cs ih =>
    intro i h
    have h2 : (if isPrefixList sub (c :: cs) then some 0
        else (indexOfSub sub cs).map (· + 1)) = some i := h
    by_cases hp : isPrefixList sub (c :: cs) = true
    · rw [if_pos hp] at h2
      obtain rfl := (Option.some.inj h2).symm
      exact ⟨by simpa using hp, fun j hj => absurd hj (Nat.not_lt_zero j)⟩
    · rw [if_neg hp] at h2
      cases hrec : indexOfSub sub cs with
      | none => rw [hrec] at h2; simp at h2
      | some i0 =>
        rw [hrec] at h2
        simp at h2
        obtain rfl := h2.symm
        obtain ⟨ha, hb⟩ := ih hrec
        refine ⟨by simpa using ha, ?_⟩
        intro j hj
        cases j with
        | zero => simpa using hp
        | succ j0 => simpa using hb j0 (by omega)

theorem rf_id_of_no_match_drop {m : List Char → Option (List Char)} {r : List Char}
    {s : List Char} (h : ∀ i, i ≤ s.length → m (s.drop i) = none) :
    replaceFirst m r s = s := by
  show replaceFirstFrom m r [] s = s
  refine rff_id_of_no_match ?_ []
  intro p q hpq
  have hl : p.length ≤ s.length := by rw [hpq]; simp
  have hq : s.drop p.length = q := by rw [hpq]; exact List.drop_left p q
  rw [← hq]
  exact h p.length hl

theorem rf_first_match_drop {m : List Char → Option (List Char)} {r rest : List Char}
    {p t : List Char} (hr : '$' ∉ r)
    (h : ∀ i, i < p.length → m (p.drop i ++ t) = none)
    (hm : m t = some rest) :
    replaceFirst m r (p ++ t) = p ++ (r ++ rest) := by
  show replaceFirstFrom m r [] (p ++ t) = p ++ (r ++ rest)
  refine rff_first_match_lit hr ?_ hm []
  intro p1 p2 hp hne
  have hl : p1.length < p.length := by
    rw [hp, List.length_append]
    cases p2 with
    | nil => exact absurd rfl hne
    | cons a as => simp
  have hq : p.drop p1.length = p2 := by rw [hp]; exact List.drop_left p1 p2
  exact hq ▸ h p1.length hl

/-! ### The slug extractor and the injector -/

theorem extractProductSlug_eq_some_iff {path s : List Char} :
    extractProductSlug path = some s ↔
      ∃ r, path = "/products/".data ++ (s ++ r) ∧ s ≠ [] ∧
        (∀ c ∈ s, c ≠ '/' ∧ c ≠ '?') ∧
        (r = [] ∨ ∃ c r2, r = c :: r2 ∧ (c = '/' ∨ c = '?')) := by
  constructor
  · intro h
    unfold extractProductSlug at h
    cases hdl : dropLit false "/products/".data path with
    | none => rw [hdl] at h; exact absurd h (by simp)
    | some rest =>
      rw [hdl] at h
      have h2 : (if rest.takeWhile (fun c => c != '/' && c != '?') = [] then none
          else some (rest.takeWhile (fun c => c != '/' && c != '?'))) = some s := h
      by_cases hc : rest.takeWhile (fun c => c != '/' && c != '?') = []
      · rw [if_pos hc] at h2
        exact absurd h2 (by simp)
      · rw [if_neg hc] at h2
        obtain rfl := Option.some.inj h2
        refine ⟨rest.dropWhile (fun c => c != '/' && c != '?'), ?_, hc, ?_, ?_⟩
        · rw [dropLit_false_eq_some hdl, List.takeWhile_append_dropWhile]
        · intro c hcmem
          have hp := List.mem_takeWhile_imp hcmem
          simp only [Bool.and_eq_true, bne_iff_ne, ne_eq] at hp
          exact hp
        · cases hdw : rest.dropWhile (fun c => c != '/' && c != '?') with
          | nil => exact Or.inl rfl
          | cons c r2 =>
            have hf := dropWhile_head_false hdw
            refine Or.inr ⟨c, r2, rfl, ?_⟩
            simp only [Bool.and_eq_false_iff, bne_eq_false_iff_eq] at hf
            exact hf
  · rintro ⟨r, rfl, hne, hmem, hr⟩
    unfold extractProductSlug
    rw [dropLit_false_append]
    show (if (s ++ r).takeWhile (fun c => c != '/' && c != '?') = [] then none
      else some ((s ++ r).takeWhile (fun c => c != '/' && c != '?'))) = some s
    have hall : ∀ c ∈ s, ((fun c => c != '/' && c != '?') c = true) := by
      intro c hc
      obtain ⟨h1, h2⟩ := hmem c hc
      simp [h1, h2]
    rw [takeWhile_append_all hall]
    have hrt : r.takeWhile (fun c => c != '/' && c != '?') = [] := by
      rcases hr with rfl | ⟨c, r2, rfl, hc⟩
      · rfl
      · rw [List.takeWhile_cons, if_neg]
        rcases hc with rfl | rfl <;> simp
    rw [hrt, List.append_nil, if_neg hne]

theorem injectMetaTags_no_slug {ε : Type}
    (findOne findById : List Char → Except ε (Option Product))
    (html path baseUrl : List Char) (hex : extractProductSlug path = none) :
    injectMetaTags findOne findById html path baseUrl = html := by
  unfold injectMetaTags
  rw [hex]

theorem injectMetaTags_found {ε : Type}
    (findOne findById : List Char → Except ε (Option Product))
    (html path baseUrl slug : List Char) (p : Product)
    (hex : extractProductSlug path = some slug) (hf : findOne slug = Except.ok (some p)) :
    injectMetaTags findOne findById html path baseUrl =
      applySeoTags (generateProductSeoTags p baseUrl) html := by
  unfold injectMetaTags
  simp only [hex, hf]

/-! ### Claim theorems -/

/-- C7: for every request path that does not match the shape `/products/<id>`
(the extractor yields nothing), the injector returns its input unchanged and
the product lookup is never invoked: the result is the input document for
every pair of lookup functions, and coincides for any two such pairs. -/
theorem c7_non_product_identity {ε ε2 : Type}
    (findOne findById : List Char → Except ε (Option Product))
    (findOne2 findById2 : List Char → Except ε2 (Option Product))
    (html path baseUrl : List Char) (hex : extractProductSlug path = none) :
    injectMetaTags findOne findById html path baseUrl = html ∧
    injectMetaTags findOne findById html path baseUrl =
      injectMetaTags findOne2 findById2 html path baseUrl := by
  refine ⟨injectMetaTags_no_slug findOne findById html path baseUrl hex, ?_⟩
  rw [injectMetaTags_no_slug findOne findById html path baseUrl hex,
    injectMetaTags_no_slug findOne2 findById2 html path baseUrl hex]

/-- Witness for C7 at path `/about` with lookups that would throw if invoked. -/
theorem c7_witness :
    injectMetaTags (fun _ => Except.error ()) (fun _ => Except.error ())
        "<p>x</p>".data "/about".data "https://uni10.in".data = "<p>x</p>".data ∧
    injectMetaTags (fun _ => Except.error ()) (fun _ => Except.error ())
        "<p>x</p>".data "/about".data "https://uni10.in".data =
      injectMetaTags (fun _ => (Except.ok none : Except Unit (Option Product)))
        (fun _ => Except.ok none) "<p>x</p>".data "/about".data "https://uni10.in".data :=
  c7_non_product_identity (fun _ => Except.error ()) (fun _ => Except.error ())
    (fun _ => Except.ok none) (fun _ => Except.ok none)
    "<p>x</p>".data "/about".data "https://uni10.in".data (by decide)

/-- C10: a returned slug is non-empty and contains neither `/` nor `?`; an
empty segment after `/products/` (as in `/products/` or `/products//x`)
yields no slug, so the injector is the identity on such paths. -/
theorem c10_slug_nonempty {ε : Type}
    (findOne findById : List Char → Except ε (Option Product)) :
    (∀ path s, extractProductSlug path = some s →
      s ≠ [] ∧ ∀ c ∈ s, c ≠ '/' ∧ c ≠ '?') ∧
    extractProductSlug "/products/".data = none ∧
    extractProductSlug "/products//x".data = none ∧
    (∀ html baseUrl, injectMetaTags findOne findById html "/products/".data baseUrl = html ∧
      injectMetaTags findOne findById html "/products//x".data baseUrl = html) := by
  refine ⟨?_, by decide, by decide, ?_⟩
  · intro path s h
    obtain ⟨r, _, hne, hmem, _⟩ := extractProductSlug_eq_some_iff.mp h
    exact ⟨hne, hmem⟩
  · intro html baseUrl
    exact ⟨injectMetaTags_no_slug _ _ _ _ _ (by decide),
      injectMetaTags_no_slug _ _ _ _ _ (by decide)⟩

/-- Witness for C10 at the slug `abc` captured from `/products/abc?q=1`. -/
theorem c10_witness :
    ("abc".data ≠ [] ∧ ∀ c ∈ "abc".data, c ≠ '/' ∧ c ≠ '?') ∧
    injectMetaTags (fun _ => (Except.ok none : Except Unit (Option Product)))
        (fun _ => Except.ok none) "<p>x</p>".data "/products/".data "b".data = "<p>x</p>".data :=
  ⟨(c10_slug_nonempty (fun _ => (Except.ok none : Except Unit (Option Product)))
      (fun _ => Except.ok none)).1 "/products/abc?q=1".data "abc".data (by decide),
    ((c10_slug_nonempty (fun _ => (Except.ok none : Except Unit (Option Product)))
      (fun _ => Except.ok none)).2.2.2 "<p>x</p>".data "b".data).1⟩

/-- C4: when a lookup raises an error (timeout, network failure), the
try/catch returns the original document unchanged — never a partially
modified one — and no exception escapes (the function is total). -/
theorem c4_error_unchanged {ε : Type}
    (findOne findById : List Char → Except ε (Option Product))
    (html path baseUrl slug : List Char) (e : ε)
    (hex : extractProductSlug path = some slug) :
    (findOne slug = Except.error e → injectMetaTags findOne findById html path baseUrl = html) ∧
    (findOne slug = Except.ok none → findById slug = Except.error e →
      injectMetaTags findOne findById html path baseUrl = html) := by
  constructor
  · intro h
    unfold injectMetaTags
    simp only [hex, h]
  · intro h1 h2
    unfold injectMetaTags
    simp only [hex, h1, h2]

/-- Witness for C4: a slug-lookup error and an id-lookup error both leave
the document untouched. -/
theorem c4_witness :
    injectMetaTags (fun _ => (Except.error () : Except Unit (Option Product)))
        (fun _ => Except.ok none) "<title>t</title>".data "/products/x".data "b".data =
      "<title>t</title>".data ∧
    injectMetaTags (fun _ => (Except.ok none : Except Unit (Option Product)))
        (fun _ => Except.error ()) "<title>t</title>".data "/products/x".data "b".data =
      "<title>t</title>".data :=
  ⟨(c4_error_unchanged (fun _ => (Except.error () : Except Unit (Option Product)))
      (fun _ => Except.ok none) "<title>t</title>".data "/products/x".data "b".data
      "x".data () (by decide)).1 rfl,
    (c4_error_unchanged (fun _ => (Except.ok none : Except Unit (Option Product)))
      (fun _ => Except.error ()) "<title>t</title>".data "/products/x".data "b".data
      "x".data () (by decide)).2 rfl rfl⟩

/-- C8: the product is resolved by slug first; the id lookup matters only
when the slug lookup yields nothing (the result is independent of it
otherwise); when both yield nothing the document is returned unchanged. -/
theorem c8_lookup_order {ε : Type}
    (findOne findById findById2 : List Char → Except ε (Option Product))
    (html path baseUrl slug : List Char) (p : Product)
    (hex : extractProductSlug path = some slug) :
    (findOne slug = Except.ok (some p) →
      injectMetaTags findOne findById html path baseUrl =
        applySeoTags (generateProductSeoTags p baseUrl) html ∧
      injectMetaTags findOne findById html path baseUrl =
        injectMetaTags findOne findById2 html path baseUrl) ∧
    (findOne slug = Except.ok none → findById slug = Except.ok (some p) →
      injectMetaTags findOne findById html path baseUrl =
        applySeoTags (generateProductSeoTags p baseUrl) html) ∧
    (findOne slug = Except.ok none → findById slug = Except.ok none →
      injectMetaTags findOne findById html path baseUrl = html) := by
  refine ⟨fun h => ⟨injectMetaTags_found findOne findById html path baseUrl slug p hex h, ?_⟩,
    fun h1 h2 => ?_, fun h1 h2 => ?_⟩
  · rw [injectMetaTags_found findOne findById html path baseUrl slug p hex h,
      injectMetaTags_found findOne findById2 html path baseUrl slug p hex h]
  · unfold injectMetaTags
    simp only [hex, h1, h2]
  · unfold injectMetaTags
    simp only [hex, h1, h2]

/-- Witness for C8: both lookups empty leaves the document byte-for-byte. -/
theorem c8_witness :
    injectMetaTags (fun _ => (Except.ok none : Except Unit (Option Product)))
        (fun _ => Except.ok none) "<p>x</p>".data "/products/unknown-slug".data "b".data =
      "<p>x</p>".data :=
  (c8_lookup_order (fun _ => (Except.ok none : Except Unit (Option Product)))
    (fun _ => Except.ok none) (fun _ => Except.ok none) "<p>x</p>".data
    "/products/unknown-slug".data "b".data "unknown-slug".data
    ⟨[], [], [], [], []⟩ (by decide)).2.2 rfl rfl

/-- C9: the extractor returns `s` exactly when the path is `/products/`
followed by the non-empty run `s` of characters other than `/` and `?`,
the run ending at the next `/` or `?` (or the end of the path); the capture
is the verbatim substring — no case normalisation or percent-decoding. -/
theorem c9_extract_characterisation (path s : List Char) :
    extractProductSlug path = some s ↔
      ∃ r, path = "/products/".data ++ (s ++ r) ∧ s ≠ [] ∧
        (∀ c ∈ s, c ≠ '/' ∧ c ≠ '?') ∧
        (r = [] ∨ ∃ c r2, r = c :: r2 ∧ (c = '/' ∨ c = '?')) :=
  extractProductSlug_eq_some_iff

/-- Witness for C9: mixed case and percent-encoding are captured verbatim. -/
theorem c9_witness :
    extractProductSlug "/products/Ab%2Fc?x=1".data = some "Ab%2Fc".data :=
  (c9_extract_characterisation "/products/Ab%2Fc?x=1".data "Ab%2Fc".data).mpr
    ⟨"?x=1".data, by decide, by decide, by decide,
      Or.inr ⟨'?', "x=1".data, rfl, Or.inr rfl⟩⟩

/-- C1: each of the six Open Graph / Twitter / canonical tags is replaced
only when its attribute substring is already present in the document (the
case-sensitive `includes` test); when the substring is absent the step is
the identity — nothing is inserted and the document is unchanged. -/
theorem c1_conditional_replace (sd : SeoTagSet) (html : List Char) :
    ((containsSubstring "property=\"og:title\"".data html = false →
        stepOgTitle sd html = html) ∧
      (containsSubstring "property=\"og:title\"".data html = true →
        stepOgTitle sd html = replaceFirst matchOgTitleAt
          (metaPropText "og:title".data (escQuotes sd.ogTitle)) html)) ∧
    ((containsSubstring "property=\"og:description\"".data html = false →
        stepOgDescription sd html = html) ∧
      (containsSubstring "property=\"og:description\"".data html = true →
        stepOgDescription sd html = replaceFirst matchOgDescriptionAt
          (metaPropText "og:description".data (escQuotes sd.ogDescription)) html)) ∧
    ((containsSubstring "name=\"twitter:title\"".data html = false →
        stepTwitterTitle sd html = html) ∧
      (containsSubstring "name=\"twitter:title\"".data html = true →
        stepTwitterTitle sd html = replaceFirst matchTwitterTitleAt
          (metaNameText "twitter:title".data (escQuotes sd.ogTitle)) html)) ∧
    ((containsSubstring "name=\"twitter:description\"".data html = false →
        stepTwitterDescription sd html = html) ∧
      (containsSubstring "name=\"twitter:description\"".data html = true →
        stepTwitterDescription sd html = replaceFirst matchTwitterDescriptionAt
          (metaNameText "twitter:description".data (escQuotes sd.ogDescription)) html)) ∧
    ((containsSubstring "property=\"og:image\"".data html = false →
        stepOgImage sd html = html) ∧
      (containsSubstring "property=\"og:image\"".data html = true →
        stepOgImage sd html = replaceFirst matchOgImageAt
          (metaPropText "og:image".data (escQuotes sd.ogImage)) html)) ∧
    ((containsSubstring "rel=\"canonical\"".data html = false →
        stepCanonical sd html = html) ∧
      (containsSubstring "rel=\"canonical\"".data html = true →
        stepCanonical sd html = replaceFirst matchCanonicalAt
          (linkCanonicalText (escQuotes sd.canonicalUrl)) html)) := by
  refine ⟨⟨?_, ?_⟩, ⟨?_, ?_⟩, ⟨?_, ?_⟩, ⟨?_, ?_⟩, ⟨?_, ?_⟩, ⟨?_, ?_⟩⟩ <;> intro h <;>
    first
      | (unfold stepOgTitle; rw [h]; simp)
      | (unfold stepOgDescription; rw [h]; simp)
      | (unfold stepTwitterTitle; rw [h]; simp)
      | (unfold stepTwitterDescription; rw [h]; simp)
      | (unfold stepOgImage; rw [h]; simp)
      | (unfold stepCanonical; rw [h]; simp)

/-- Witness for C1: a document with none of the six attribute substrings is
untouched by each of the six conditional steps. -/
theorem c1_witness :
    stepOgTitle ⟨"T".data, "D".data, "OT".data, "OD".data, "I".data, "K".data, "U".data⟩
        "<p>hello</p>".data = "<p>hello</p>".data ∧
    stepOgDescription ⟨"T".data, "D".data, "OT".data, "OD".data, "I".data, "K".data, "U".data⟩
        "<p>hello</p>".data = "<p>hello</p>".data ∧
    stepTwitterTitle ⟨"T".data, "D".data, "OT".data, "OD".data, "I".data, "K".data, "U".data⟩
        "<p>hello</p>".data = "<p>hello</p>".data ∧
    stepTwitterDescription ⟨"T".data, "D".data, "OT".data, "OD".data, "I".data, "K".data, "U".data⟩
        "<p>hello</p>".data = "<p>hello</p>".data ∧
    stepOgImage ⟨"T".data, "D".data, "OT".data, "OD".data, "I".data, "K".data, "U".data⟩
        "<p>hello</p>".data = "<p>hello</p>".data ∧
    stepCanonical ⟨"T".data, "D".data, "OT".data, "OD".data, "I".data, "K".data, "U".data⟩
        "<p>hello</p>".data = "<p>hello</p>".data :=
  ⟨(c1_conditional_replace _ _).1.1 (by decide),
    (c1_conditional_replace _ _).2.1.1 (by decide),
    (c1_conditional_replace _ _).2.2.1.1 (by decide),
    (c1_conditional_replace _ _).2.2.2.1.1 (by decide),
    (c1_conditional_replace _ _).2.2.2.2.1.1 (by decide),
    (c1_conditional_replace _ _).2.2.2.2.2.1 (by decide)⟩

/-- C2: with a non-empty keywords value the step replaces the first
keywords meta tag when the substring `name="keywords"` occurs, and
otherwise inserts the new tag (four spaces, tag, newline) immediately
before the first occurrence of `</head>`; with an empty keywords value the
document is unchanged. -/
theorem c2_keywords_policy (sd : SeoTagSet) (html : List Char) :
    (sd.keywords = [] → stepKeywords sd html = html) ∧
    (sd.keywords ≠ [] → containsSubstring "name=\"keywords\"".data html = true →
      stepKeywords sd html = replaceFirst matchKeywordsAt
        (metaNameText "keywords".data (escQuotes sd.keywords)) html) ∧
    (sd.keywords ≠ [] → containsSubstring "name=\"keywords\"".data html = false →
      ∀ i, indexOfSub "</head>".data html = some i →
        stepKeywords sd html =
          html.take i ++
            ("    ".data ++ metaNameText "keywords".data (escQuotes sd.keywords) ++
              "\n".data) ++ html.drop i ∧
        isPrefixList "</head>".data (html.drop i) = true ∧
        (∀ j, j < i → isPrefixList "</head>".data (html.drop j) = false)) ∧
    (sd.keywords ≠ [] → containsSubstring "name=\"keywords\"".data html = false →
      indexOfSub "</head>".data html = none → stepKeywords sd html = html) := by
  refine ⟨fun h0 => ?_, fun h0 hc => ?_, fun h0 hc i hi => ?_, fun h0 hc hn => ?_⟩
  · unfold stepKeywords
    rw [if_pos h0]
  · unfold stepKeywords
    rw [if_neg h0, hc]
    simp
  · refine ⟨?_, (indexOfSub_first_occ hi).1, (indexOfSub_first_occ hi).2⟩
    unfold stepKeywords insertBeforeFirst
    rw [if_neg h0, hc, hi]
    simp
  · unfold stepKeywords insertBeforeFirst
    rw [if_neg h0, hc, hn]
    simp

/-- Witness for C2: keywords inserted before the first `</head>` of
`<head></head>`, at index 6, with the four-space indent and newline. -/
theorem c2_witness :
    stepKeywords ⟨"T".data, "D".data, "OT".data, "OD".data, "I".data, "K".data, "U".data⟩
        "<head></head>".data =
      "<head></head>".data.take 6 ++
        ("    ".data ++
          metaNameText "keywords".data
            (escQuotes ("K".data)) ++ "\n".data) ++ "<head></head>".data.drop 6 ∧
    isPrefixList "</head>".data ("<head></head>".data.drop 6) = true ∧
    (∀ j, j < 6 → isPrefixList "</head>".data ("<head></head>".data.drop j) = false) :=
  (c2_keywords_policy ⟨"T".data, "D".data, "OT".data, "OD".data, "I".data, "K".data, "U".data⟩
    "<head></head>".data).2.2.1 (by decide) (by decide) 6 (by decide)

/-- C6: every replacement value the injector writes is quote-escaped first:
the substitution phase behaves identically on a tag set whose fields are
already escaped, and each escaped field is free of raw double quotes. -/
theorem c6_escaping (sd : SeoTagSet) (html : List Char) :
    applySeoTags sd html = applySeoTags (escapeTagSet sd) html ∧
    '"' ∉ (escapeTagSet sd).title ∧ '"' ∉ (escapeTagSet sd).description ∧
    '"' ∉ (escapeTagSet sd).ogTitle ∧ '"' ∉ (escapeTagSet sd).ogDescription ∧
    '"' ∉ (escapeTagSet sd).ogImage ∧ '"' ∉ (escapeTagSet sd).keywords ∧
    '"' ∉ (escapeTagSet sd).canonicalUrl := by
  refine ⟨?_, escQuotes_no_quote _, escQuotes_no_quote _, escQuotes_no_quote _,
    escQuotes_no_quote _, escQuotes_no_quote _, escQuotes_no_quote _, escQuotes_no_quote _⟩
  unfold applySeoTags stepTitle stepDescription stepOgTitle stepOgDescription stepKeywords
    stepTwitterTitle stepTwitterDescription stepOgImage stepCanonical escapeTagSet
  simp only [escQuotes_idem, escQuotes_eq_nil_iff]

/-- C3 counterexample: the claim says the attribute order of the existing
description tag may vary, but the regex fixes `name=` before `content=`.
In `<meta content="old" name="description" />` a description tag is present
(the attribute substring occurs), its content differs from the generated
description, yet the step leaves the document unchanged — no replacement
happens. -/
theorem c3_counterexample :
    containsSubstring "name=\"description\"".data
        "<meta content=\"old\" name=\"description\" />".data = true ∧
    stepDescription ⟨"T".data, "new".data, "OT".data, "OD".data, "I".data, "K".data, "U".data⟩
        "<meta content=\"old\" name=\"description\" />".data =
      "<meta content=\"old\" name=\"description\" />".data := by
  constructor
  · decide
  · decide

/-- C3 amended: the title step replaces exactly the first
`<title>...</title>` occurrence (no-op when none exists), and the
description step replaces exactly the first case-insensitive match of a
`<meta name="description" content="...">` tag in which the whitespace runs
and the self-closing slash may vary — but the attribute order is fixed
(`name=` before `content=`), unlike the claim's wording.  The replaced
occurrence is rewritten to exactly the generated tag provided the generated
value contains no `$` (otherwise `String.prototype.replace` expands `$$`,
`$&`, `` $` `` and `$'` inside the replacement). -/
theorem c3_first_match_amended (sd : SeoTagSet) :
    (∀ html : List Char, (∀ i, i ≤ html.length → matchTitleAt (html.drop i) = none) →
      stepTitle sd html = html) ∧
    (∀ p t rest : List Char, '$' ∉ sd.title →
      (∀ i, i < p.length → matchTitleAt (p.drop i ++ t) = none) →
      matchTitleAt t = some rest →
      stepTitle sd (p ++ t) = p ++ (titleTagText (escQuotes sd.title) ++ rest)) ∧
    (∀ html : List Char, (∀ i, i ≤ html.length → matchDescriptionAt (html.drop i) = none) →
      stepDescription sd html = html) ∧
    (∀ p t rest : List Char, '$' ∉ sd.description →
      (∀ i, i < p.length → matchDescriptionAt (p.drop i ++ t) = none) →
      matchDescriptionAt t = some rest →
      stepDescription sd (p ++ t) =
        p ++ (metaNameText "description".data (escQuotes sd.description) ++ rest)) ∧
    (∀ o w1 av w2 kv v ws : List Char, ∀ sl : Bool, ∀ rest : List Char,
      o.map lowerChar = "<meta".data → w1 ≠ [] → (∀ c ∈ w1, isSpaceJs c = true) →
      av.map lowerChar = "name=\"description\"".data → av ≠ [] →
      av.dropWhile isSpaceJs = av →
      w2 ≠ [] → (∀ c ∈ w2, isSpaceJs c = true) →
      kv.map lowerChar = "content=\"".data → kv ≠ [] → kv.dropWhile isSpaceJs = kv →
      '"' ∉ v → (∀ c ∈ ws, isSpaceJs c = true) →
      matchDescriptionAt
        (o ++ (w1 ++ (av ++ (w2 ++ (kv ++ (v ++ ('"' :: (ws ++
          ((if sl then ['/'] else []) ++ ('>' :: rest)))))))))) = some rest) := by
  refine ⟨?_, ?_, ?_, ?_, ?_⟩
  · intro html h
    exact rf_id_of_no_match_drop h
  · intro p t rest hT4 h hm
    exact rf_first_match_drop
      (dollar_not_mem_titleTag (escQuotes_not_mem hT4 (by decide))) h hm
  · intro html h
    exact rf_id_of_no_match_drop h
  · intro p t rest hD4 h hm
    exact rf_first_match_drop
      (dollar_not_mem_metaName (by decide) (escQuotes_not_mem hD4 (by decide))) h hm
  · intro o w1 av w2 kv v ws sl rest ho h1 h2 h3 h4 h5 h6 h7 h8 h9 h10 h11 h12
    exact matchAttrTagAt_flex sl rest ho h1 h2 h3 h4 h5 h6 h7 h8 h9 h10 h11 h12

/-- Witness for C3: the first title tag after a title-free prefix is
replaced, and an upper-case, re-spaced, slashless description tag is
matched by the case-insensitive regex. -/
theorem c3_witness :
    stepTitle ⟨"New".data, "D".data, "OT".data, "OD".data, "I".data, "K".data, "U".data⟩
        ("<head>".data ++ "<title>old</title></head>".data) =
      "<head>".data ++ (titleTagText (escQuotes "New".data) ++ "</head>".data) ∧
    matchDescriptionAt
      ("<META".data ++ ([' ', ' '] ++ ("Name=\"DESCRIPTION\"".data ++ ([' '] ++
        ("Content=\"".data ++ ("old".data ++ ('"' :: ([] ++
          ((if false then ['/'] else []) ++ ('>' :: "tail".data)))))))))) =
      some "tail".data :=
  ⟨(c3_first_match_amended
      ⟨"New".data, "D".data, "OT".data, "OD".data, "I".data, "K".data, "U".data⟩).2.1
      "<head>".data "<title>old</title></head>".data "</head>".data (by decide) (by decide)
      (by decide),
    (c3_first_match_amended
      ⟨"New".data, "D".data, "OT".data, "OD".data, "I".data, "K".data, "U".data⟩).2.2.2.2
      "<META".data [' ', ' '] "Name=\"DESCRIPTION\"".data [' '] "Content=\"".data
      "old".data [] false "tail".data (by decide) (by decide) (by decide) (by decide)
      (by decide) (by decide) (by decide) (by decide) (by decide) (by decide) (by decide)
      (by decide) (by decide)⟩

/-- C5 counterexample: with a product whose name contains `</title><title>`
the spec-modelled generator produces a title value that the title regex
re-matches differently on the second pass, duplicating the title tag: the
injector applied twice differs from the injector applied once. -/
theorem c5_counterexample :
    injectMetaTags
        (fun _ => (Except.ok (some ⟨"s".data, "x</title><title>y".data, [], [], []⟩) :
          Except Unit (Option Product)))
        (fun _ => Except.ok none)
        (injectMetaTags
          (fun _ => (Except.ok (some ⟨"s".data, "x</title><title>y".data, [], [], []⟩) :
            Except Unit (Option Product)))
          (fun _ => Except.ok none)
          "<head><title>old</title></head>".data "/products/s".data "b".data)
        "/products/s".data "b".data ≠
      injectMetaTags
        (fun _ => (Except.ok (some ⟨"s".data, "x</title><title>y".data, [], [], []⟩) :
          Except Unit (Option Product)))
        (fun _ => Except.ok none)
        "<head><title>old</title></head>".data "/products/s".data "b".data := by
  decide

/-- C5 amended: applying the injector twice with the same product equals
applying it once, provided the document is a well-formed shell (title tag,
canonical description tag, head-closing tag, optional already-inserted
keywords tag, no stray `<` elsewhere) and the product's generated field
values contain no `<` and the existing description/keywords values no raw
`"`; in particular the keywords tag inserted by the first pass is replaced,
not duplicated, by the second.  The product's name, description and
keywords must also contain no `$`, since `String.prototype.replace`
expands `$$`, `$&`, `` $` `` and `$'` inside the replacement string. -/
theorem c5_idempotent_amended {ε : Type}
    (findOne findById : List Char → Except ε (Option Product))
    (path baseUrl slug : List Char) (p : Product)
    {f0 t f1 d f2 f3 : List Char} {kw : Option (List Char)}
    (hex : extractProductSlug path = some slug) (hf : findOne slug = Except.ok (some p))
    (hf0 : '<' ∉ f0) (hf1 : '<' ∉ f1) (hf2 : '<' ∉ f2) (hf3 : '<' ∉ f3)
    (ht : '<' ∉ t) (hdq : '"' ∉ d)
    (hkw : ∀ k, kw = some k → '<' ∉ k ∧ '"' ∉ k)
    (hname : '<' ∉ p.name) (hdesc : '<' ∉ p.description) (hkws : '<' ∉ p.keywords)
    (hname4 : '$' ∉ p.name) (hdesc4 : '$' ∉ p.description) (hkws4 : '$' ∉ p.keywords) :
    injectMetaTags findOne findById
        (injectMetaTags findOne findById (shellDoc f0 t f1 d f2 kw f3) path baseUrl)
        path baseUrl =
      injectMetaTags findOne findById (shellDoc f0 t f1 d f2 kw f3) path baseUrl := by
  have hT : '<' ∉ (generateProductSeoTags p baseUrl).title := by
    intro h
    rcases List.mem_append.mp h with h1 | h1
    · exact hname h1
    · exact absurd h1 (by decide)
  have hT4 : '$' ∉ (generateProductSeoTags p baseUrl).title := by
    intro h
    rcases List.mem_append.mp h with h1 | h1
    · exact hname4 h1
    · exact absurd h1 (by decide)
  rw [injectMetaTags_found findOne findById (shellDoc f0 t f1 d f2 kw f3) path baseUrl
    slug p hex hf]
  rw [injectMetaTags_found findOne findById
    (applySeoTags (generateProductSeoTags p baseUrl) (shellDoc f0 t f1 d f2 kw f3))
    path baseUrl slug p hex hf]
  exact applySeoTags_shell_idem (generateProductSeoTags p baseUrl)
    hf0 hf1 hf2 hf3 ht hdq hkw hT hdesc hkws hT4 hdesc4 hkws4

/-- Witness for C5 amended: a concrete shell and a concrete product. -/
theorem c5_witness :
    injectMetaTags
        (fun _ => (Except.ok (some ⟨"mug".data, "Blue Mug".data, "nice".data, "i.png".data,
          "cups".data⟩) : Except Unit (Option Product)))
        (fun _ => Except.ok none)
        (injectMetaTags
          (fun _ => (Except.ok (some ⟨"mug".data, "Blue Mug".data, "nice".data, "i.png".data,
            "cups".data⟩) : Except Unit (Option Product)))
          (fun _ => Except.ok none)
          (shellDoc "A".data "old".data "B".data "olddesc".data "C".data none "E".data)
          "/products/mug".data "https://uni10.in".data)
        "/products/mug".data "https://uni10.in".data =
      injectMetaTags
        (fun _ => (Except.ok (some ⟨"mug".data, "Blue Mug".data, "nice".data, "i.png".data,
          "cups".data⟩) : Except Unit (Option Product)))
        (fun _ => Except.ok none)
        (shellDoc "A".data "old".data "B".data "olddesc".data "C".data none "E".data)
        "/products/mug".data "https://uni10.in".data :=
  c5_idempotent_amended
    (fun _ => (Except.ok (some ⟨"mug".data, "Blue Mug".data, "nice".data, "i.png".data,
      "cups".data⟩) : Except Unit (Option Product)))
    (fun _ => Except.ok none) "/products/mug".data "https://uni10.in".data "mug".data
    ⟨"mug".data, "Blue Mug".data, "nice".data, "i.png".data, "cups".data⟩
    (by decide) rfl (by decide) (by decide) (by decide) (by decide) (by decide) (by decide)
    (fun k h => Option.noConfusion h) (by decide) (by decide) (by decide)
    (by decide) (by decide) (by decide)

end Seo
